import Mathlib

/-!
Verification of the simba skill-manager core against its specification.

The TypeScript sources are shallowly embedded: pure computations become
Lean functions, filesystem-mutating operations become explicit state
passing over a finite-map model of the filesystem, and fallible
operations return an error component.  Content digests (sha256) are kept
abstract as a parameter H : String → String, since every claim under
study concerns the structure around the digest, not the digest itself.
-/

namespace Simba

/-! ## Generic list comparison (lexicographic on Nat lists) -/

/-- Three-way lexicographic comparison of lists of naturals. -/
def natListCmp : List Nat → List Nat → Ordering
  | [], [] => .eq
  | [], _ :: _ => .lt
  | _ :: _, [] => .gt
  | a :: as, b :: bs =>
    if a < b then .lt else if b < a then .gt else natListCmp as bs

/-! ## Locale collation model

`Array.prototype.sort((a, b) => a.localeCompare(b))` is what
`hashTree` and `buildMatrix` use to order strings.  `localeCompare`
with no arguments uses the runtime's default locale (ICU root
collation in Node).  We model it for ASCII strings: a primary pass
that compares letters case-insensitively (digits before letters,
other characters before digits by code point), followed by a
tertiary pass that places lowercase before uppercase.  This matches
ICU root-collation behaviour on alphanumeric ASCII strings. -/

/-- Primary collation weight of an ASCII character: non-alphanumeric
characters keep (small) code-point weights, digits come next, letters
last and case-insensitively. -/
def charPrimary (c : Char) : Nat :=
  if 48 ≤ c.toNat ∧ c.toNat ≤ 57 then 1000 + c.toNat
  else if 65 ≤ c.toNat ∧ c.toNat ≤ 90 then 2000 + (c.toNat - 65)
  else if 97 ≤ c.toNat ∧ c.toNat ≤ 122 then 2000 + (c.toNat - 97)
  else c.toNat

/-- Tertiary collation weight: lowercase sorts before uppercase. -/
def charTertiary (c : Char) : Nat :=
  if 65 ≤ c.toNat ∧ c.toNat ≤ 90 then 1 else 0

/-- Primary collation key of a string. -/
def primKey (s : String) : List Nat := s.data.map charPrimary

/-- Tertiary collation key of a string. -/
def tertKey (s : String) : List Nat := s.data.map charTertiary

/-- Model of `a.localeCompare(b)`: primary pass, then tertiary pass. -/
def localeCmp (a b : String) : Ordering :=
  match natListCmp (primKey a) (primKey b) with
  | .eq => natListCmp (tertKey a) (tertKey b)
  | o => o

/-- The non-strict order induced by `localeCompare`; a JS comparator
sort with `(a, b) => a.localeCompare(b)` produces a list that is
sorted (stably) with respect to this relation. -/
def localeLe (a b : String) : Bool :=
  match localeCmp a b with
  | .gt => false
  | _ => true

/-- Byte/code-unit comparison of strings (the ordering the spec
prescribes for canonicalization). -/
def byteCmp (a b : String) : Ordering :=
  natListCmp (a.data.map Char.toNat) (b.data.map Char.toNat)

/-- Non-strict byte order on strings. -/
def byteLe (a b : String) : Bool :=
  match byteCmp a b with
  | .gt => false
  | _ => true

/-! ## Files-only filesystem model

Used by the hashing, matrix and snapshot components, none of which
create or inspect symlinks.  A filesystem is a finite map from
absolute paths (segment lists) to file contents, represented as an
association list whose earlier entries shadow later ones.
Directories are implicit: a path is a directory when some file lives
strictly below it. -/

/-- A filesystem path, as its list of segments. -/
abbrev Path := List String

/-- Files-only filesystem: association list from path to content. -/
abbrev FS := List (Path × String)

/-- Look up the file content at a path. -/
def lookupFS (fs : FS) (p : Path) : Option String :=
  (fs.find? (fun e => decide (e.1 = p))).map Prod.snd

/-- Remove the binding for one exact path. -/
def eraseKey (fs : FS) (p : Path) : FS :=
  fs.filter (fun e => decide (e.1 ≠ p))

/-- Write a file, overwriting any previous content at that path. -/
def insertFS (fs : FS) (p : Path) (c : String) : FS :=
  (p, c) :: eraseKey fs p

/-- Is `p` strictly below directory `d`? -/
def strictUnder (d p : Path) : Bool :=
  d.isPrefixOf p && decide (p ≠ d)

/-- Recursive copy (`cp(src, dst, { recursive: true })`): every file at
`src ++ rel` is written to `dst ++ rel`, overwriting same-path files
and leaving unrelated files in place. -/
def cpFS (fs : FS) (src dst : Path) : FS :=
  let copied := fs.filterMap (fun e =>
    if src.isPrefixOf e.1 then some (dst ++ e.1.drop src.length, e.2) else none)
  copied.foldl (fun acc e => insertFS acc e.1 e.2) fs

/-- Recursive removal (`rm(p, { recursive: true })`): drops the file at
`p` and every file below it. -/
def rmFS (fs : FS) (p : Path) : FS :=
  fs.filter (fun e => !(p.isPrefixOf e.1))

/-- Is there a file exactly at `p`? -/
def isFileIn (fs : FS) (p : Path) : Bool :=
  (lookupFS fs p).isSome

/-- Is `p` a directory, i.e. does some file live strictly below it? -/
def isDirIn (fs : FS) (p : Path) : Bool :=
  fs.any (fun e => strictUnder p e.1)

/-- First-occurrence deduplication (JS `Set` insertion order). -/
def dedupFirst {α : Type} [DecidableEq α] (l : List α) : List α :=
  l.foldl (fun acc a => if a ∈ acc then acc else acc ++ [a]) []

/-- Association-list lookup by key (JS record/`Map` access). -/
def getAssoc {α β : Type} [DecidableEq α] (m : List (α × β)) (k : α) : Option β :=
  (m.find? (fun e => decide (e.1 = k))).map Prod.snd

/-- `Map.set` semantics: replace in place when the key exists, append
otherwise (JS `Map` preserves first-insertion order). -/
def setAssoc {α β : Type} [DecidableEq α] (m : List (α × β)) (k : α) (v : β) :
    List (α × β) :=
  if m.any (fun e => decide (e.1 = k)) then
    m.map (fun e => if e.1 = k then (k, v) else e)
  else m ++ [(k, v)]

/-! ## Tree hasher (`src/utils/hash.ts`)

`hashFile` is sha256 of the file bytes; the digest is the abstract
parameter `H`.  `collectFiles` in the source performs a depth-first
traversal (readdir order per level); we enumerate the same set of
files in store order — the result feeds a sort on a total key that is
injective on the paths occurring in one tree, so the produced
`hashTree` output is the same. -/

/-- One hashed file: tree-relative POSIX path and content digest. -/
structure SkillFile where
  path : String
  hash : String
deriving Repr, DecidableEq

/-- `hashFile`: digest of one file's contents. -/
def hashFile (H : String → String) (content : String) : String :=
  H content

/-- Path of a file relative to the tree root, joined with `/`. -/
def relName (base : Path) (p : Path) : String :=
  String.intercalate "/" (p.drop base.length)

/-- All files strictly below `base`, with relative names and digests. -/
def collectFiles (H : String → String) (fs : FS) (base : Path) : List SkillFile :=
  fs.filterMap (fun e =>
    if strictUnder base e.1 then some ⟨relName base e.1, hashFile H e.2⟩ else none)

/-- The comparator relation used by `files.sort((a, b) =>
a.path.localeCompare(b.path))`. -/
def fileLe (f g : SkillFile) : Prop :=
  localeLe f.path g.path = true

instance : DecidableRel fileLe :=
  fun f g => instDecidableEqBool (localeLe f.path g.path) true

/-- Result of `hashTree`: the tree digest and the sorted file list. -/
structure TreeHashResult where
  treeHash : String
  files : List SkillFile
deriving Repr, DecidableEq

/-- `hashTree`: collect files, sort by `localeCompare` on the relative
path, join `"path:hash"` entries with newlines, digest that. -/
def hashTree (H : String → String) (fs : FS) (dir : Path) : TreeHashResult :=
  let files := collectFiles H fs dir
  let sorted := List.insertionSort fileLe files
  let treeContent := String.intercalate "\n" (sorted.map (fun f => f.path ++ ":" ++ f.hash))
  ⟨H treeContent, sorted⟩

/-! ## Agents, skill listing, matrix (`agent-registry.ts`, `skill-manager.ts`)

`expandPath` (tilde expansion) is folded away: agent `globalPath`s in
the model are already-expanded segment paths.  In `buildMatrix` the
source re-reads `this.agents[agentId]` through the registry while
iterating `Object.entries(this.agents)`; since record keys are unique
this self-lookup returns the iterated agent, which the model uses
directly. -/

/-- An agent: its (expanded) skills directory and detection flag. -/
structure Agent where
  globalPath : Path
  detected : Bool
deriving Repr, DecidableEq

/-- `Object.entries` view of the configured agent record. -/
abbrev Agents := List (String × Agent)

/-- One discovered skill (`SkillInfo` minus the `lastSeen` timestamp
and the singleton `agents` display list, which no claim consumes). -/
structure SkillInfo where
  name : String
  treeHash : String
  files : List SkillFile
  origin : String
deriving Repr, DecidableEq

/-- Immediate child names of a directory, in first-appearance order
(readdir enumeration). -/
def childNames (fs : FS) (dir : Path) : List String :=
  dedupFirst (fs.filterMap (fun e =>
    if strictUnder dir e.1 then (e.1.drop dir.length).head? else none))

/-- `listSkills` for one agent: immediate subdirectories of the skills
root containing a `SKILL.md` marker, each hashed.  A missing skills
root yields the empty list (the source swallows `ENOENT`). -/
def listSkillsA (H : String → String) (fs : FS) (agentId : String) (agent : Agent) :
    List SkillInfo :=
  let skillsPath := agent.globalPath
  (childNames fs skillsPath).filterMap (fun name =>
    if isDirIn fs (skillsPath ++ [name]) then
      if isFileIn fs (skillsPath ++ [name, "SKILL.md"]) then
        let r := hashTree H fs (skillsPath ++ [name])
        some ⟨name, r.treeHash, r.files, agentId⟩
      else none
    else none)

/-- Sync status of one skill across agents. -/
inductive SkillStatus where
  | synced
  | conflict
  | unique
  | missing
deriving Repr, DecidableEq

/-- One presence cell: `{ present, hash }`. -/
structure PA where
  present : Bool
  hash : Option String
deriving Repr, DecidableEq

/-- One matrix row: skill name, per-agent cells (detected agents, in
configuration order), classified status. -/
structure SkillMatrixRow where
  skillName : String
  agents : List (String × PA)
  status : SkillStatus
deriving Repr, DecidableEq

/-- `computeStatus`: classify from the present cells; the hash set is
a JS `Set`, modeled as first-occurrence dedup. -/
def computeStatus (agentHashes : List (String × PA)) : SkillStatus :=
  let presentAgents := agentHashes.filter (fun e => e.2.present)
  if presentAgents.length = 0 then .missing
  else if presentAgents.length = 1 then .unique
  else
    let hashes := dedupFirst (presentAgents.map (fun e => e.2.hash))
    if hashes.length = 1 then .synced else .conflict

/-- The comparator relation of `matrix.sort((a, b) =>
a.skillName.localeCompare(b.skillName))`. -/
def rowLe (a b : SkillMatrixRow) : Prop :=
  localeLe a.skillName b.skillName = true

instance : DecidableRel rowLe :=
  fun a b => instDecidableEqBool (localeLe a.skillName b.skillName) true

/-- `buildMatrix`: gather per-agent skills from every detected agent,
assemble rows over all detected agents (absent cells are
`{present: false, hash: null}`), classify, sort rows by name. -/
def buildMatrix (H : String → String) (fs : FS) (agents : Agents) :
    List SkillMatrixRow :=
  let detectedAgents := agents.filter (fun e => e.2.detected)
  let skillMap : List (String × List (String × PA)) :=
    detectedAgents.foldl (fun m e =>
      let skills := listSkillsA H fs e.1 e.2
      skills.foldl (fun m s =>
        let inner := (getAssoc m s.name).getD []
        setAssoc m s.name (setAssoc inner e.1 ⟨true, some s.treeHash⟩)) m) []
  let rows := skillMap.map (fun kv =>
    let agentsMap := detectedAgents.map (fun e =>
      (e.1, (getAssoc kv.2 e.1).getD ⟨false, none⟩))
    ⟨kv.1, agentsMap, computeStatus kv.2⟩)
  List.insertionSort rowLe rows

/-- `copySkill`: recursive copy of one skill directory from one
agent's skills root to another's. -/
def copySkill (fs : FS) (agents : Agents) (skillName fromAgent toAgent : String) :
    Except String FS :=
  match getAssoc agents fromAgent, getAssoc agents toAgent with
  | some fa, some ta =>
      .ok (cpFS fs (fa.globalPath ++ [skillName]) (ta.globalPath ++ [skillName]))
  | _, _ => .error ("Unknown agent: " ++ fromAgent ++ " or " ++ toAgent)

/-- `syncUnique`: target every detected agent other than the source
and copy the skill to each, returning the target list. -/
def syncUnique (fs : FS) (agents : Agents) (skillName sourceAgent : String) :
    Except String (List String × FS) :=
  let targetAgents :=
    (agents.filter (fun e => e.2.detected && decide (e.1 ≠ sourceAgent))).map Prod.fst
  (targetAgents.foldlM (fun acc t => copySkill acc agents skillName sourceAgent t) fs).map
    (fun fs2 => (targetAgents, fs2))

/-- `resolveConflict`: for each loser, delete its copy, then copy the
winner's copy into its place. -/
def resolveConflict (fs : FS) (agents : Agents)
    (skillName winnerAgent : String) (loserAgents : List String) :
    Except String FS :=
  loserAgents.foldlM (fun acc loser =>
    match getAssoc agents loser with
    | none => .error ("Unknown agent: " ++ loser)
    | some la =>
        copySkill (rmFS acc (la.globalPath ++ [skillName])) agents skillName
          winnerAgent loser) fs

/-! ## Link-aware filesystem model (`src/utils/symlinks.ts`, doctor)

The symlink primitives distinguish node kinds, so here a filesystem
maps paths to nodes.  Mutating operations return the final state
together with an optional error (the state already mutated before a
throw is kept, as on a real filesystem). -/

/-- A filesystem node as `lstat` classifies it. -/
inductive Node where
  | file
  | dir
  | symlink (target : Path)
deriving Repr, DecidableEq

/-- Link-aware filesystem: association list from path to node. -/
abbrev LFS := List (Path × Node)

/-- `lstat`: the node at a path, not following a final symlink. -/
def lookupL (fs : LFS) (p : Path) : Option Node :=
  (fs.find? (fun e => decide (e.1 = p))).map Prod.snd

/-- `unlink`: drop the node at one exact path. -/
def eraseL (fs : LFS) (p : Path) : LFS :=
  fs.filter (fun e => decide (e.1 ≠ p))

/-- Bind a node at a path, shadowing any previous binding. -/
def insertL (fs : LFS) (p : Path) (n : Node) : LFS :=
  (p, n) :: eraseL fs p

/-- The nonempty prefixes of a path, shortest first. -/
def prefixesOf : Path → List Path
  | [] => []
  | a :: rest => [a] :: (prefixesOf rest).map (fun p => a :: p)

/-- Worker for `mkdirp`: walk the ancestor chain shortest-first,
creating missing directories, stopping with an error at a
non-directory. -/
def mkdirpGo (fs : LFS) : List Path → Option String × LFS
  | [] => (none, fs)
  | p :: rest =>
    match lookupL fs p with
    | none => mkdirpGo (insertL fs p .dir) rest
    | some .dir => mkdirpGo fs rest
    | some _ => (some "ENOTDIR", fs)

/-- `mkdir(d, { recursive: true })`: create every missing ancestor as
a directory; an ancestor occupied by a non-directory is an error, and
directories created before the error persist. -/
def mkdirp (fs : LFS) (d : Path) : Option String × LFS :=
  mkdirpGo fs (prefixesOf d)

/-- Result of a mutating symlink operation: optional thrown error plus
the filesystem as left behind. -/
structure CSResult where
  err : Option String
  fs : LFS
deriving Repr, DecidableEq

/-- `getSymlinkTarget` (`readlink`): the link target, or null when the
path is missing or not a symlink. -/
def getSymlinkTarget (fs : LFS) (p : Path) : Option Path :=
  match lookupL fs p with
  | some (.symlink t) => some t
  | _ => none

/-- `isSymlink`: does `lstat` report a symbolic link? -/
def isSymlink (fs : LFS) (p : Path) : Bool :=
  match lookupL fs p with
  | some (.symlink _) => true
  | _ => false

/-- `access`-style existence check, following symlink chains (with
fuel bounding chain length; `fs.length + 1` covers every acyclic
chain). -/
def accessOk (fs : LFS) : Nat → Path → Bool
  | 0, _ => false
  | fuel + 1, p =>
    match lookupL fs p with
    | none => false
    | some (.symlink t) => accessOk fs fuel t
    | some _ => true

/-- `access(p)` as a Bool: true means no error thrown. -/
def accessB (fs : LFS) (p : Path) : Bool :=
  accessOk fs (fs.length + 1) p

/-- `createSymlink(source, target)`: make parent directories, try the
`symlink` syscall, and on `EEXIST` keep a matching link, replace a
differing symlink or a plain file, and throw on a real directory. -/
def createSymlink (source : Path) (target : Path) (fs : LFS) : CSResult :=
  match mkdirp fs target.dropLast with
  | (some e, fs1) => ⟨some e, fs1⟩
  | (none, fs1) =>
    match lookupL fs1 target with
    | none => ⟨none, insertL fs1 target (.symlink source)⟩
    | some node =>
      if getSymlinkTarget fs1 target = some source then ⟨none, fs1⟩
      else
        match node with
        | .symlink _ => ⟨none, insertL (eraseL fs1 target) target (.symlink source)⟩
        | .dir => ⟨some "Cannot create symlink: target is a directory (not managed by simba)", fs1⟩
        | .file => ⟨none, insertL (eraseL fs1 target) target (.symlink source)⟩

/-- `removeSymlink(p)`: unlink symlinks and plain files, throw on a
real directory, succeed silently when the path does not exist
(`ENOENT` swallowed). -/
def removeSymlink (p : Path) (fs : LFS) : CSResult :=
  match lookupL fs p with
  | none => ⟨none, fs⟩
  | some (.symlink _) => ⟨none, eraseL fs p⟩
  | some .file => ⟨none, eraseL fs p⟩
  | some .dir => ⟨some "Cannot remove: path is a directory (not managed by simba)", fs⟩

/-! ## Doctor (`src/commands/doctor.ts`, `runDoctor`) -/

/-- Classification of one `(skill, agent)` assignment pair. -/
inductive PairStatus where
  | healthy
  | brokenMissing
  | brokenTargetMissing
  | brokenWrongTarget (actual : Path)
  | rogue
deriving Repr, DecidableEq

/-- The body of the doctor loop for one assignment pair: symlink check
first; a non-symlink that exists is rogue, a missing path is a broken
link; for a symlink, a dead target then a wrong target are broken. -/
def checkAssignment (fs : LFS) (expectedPath expectedTarget : Path) : PairStatus :=
  if isSymlink fs expectedPath then
    let target := (getSymlinkTarget fs expectedPath).getD []
    if accessB fs target then
      if target ≠ expectedTarget then .brokenWrongTarget target else .healthy
    else .brokenTargetMissing
  else
    if accessB fs expectedPath then .rogue
    else .brokenMissing

/-- One broken-link report. -/
structure BrokenLink where
  skill : String
  agent : String
  path : Path
  reason : String
deriving Repr, DecidableEq

/-- One rogue-path report. -/
structure RogueFile where
  skill : String
  agent : String
  path : Path
deriving Repr, DecidableEq

/-- Aggregated doctor output. -/
structure DoctorResults where
  healthy : List String
  broken : List BrokenLink
  rogue : List RogueFile
deriving Repr, DecidableEq

/-- The registry as the doctor consumes it: skill name to the agent
ids of its assignments (`runDoctor` reads only the assignment keys). -/
abbrev DoctorRegistry := List (String × List String)

/-- `runDoctor`: walk every registry skill and each of its assignment
pairs whose agent is detected; record broken and rogue findings, and
report the skill healthy when no considered pair failed. -/
def runDoctor (fs : LFS) (skillsDir : Path) (agents : Agents)
    (registry : DoctorRegistry) : DoctorResults :=
  registry.foldl (fun results skill =>
    let checked := skill.2.foldl (fun st agentId =>
      match getAssoc agents agentId with
      | none => st
      | some agent =>
        if agent.detected then
          let expectedPath := agent.globalPath ++ [skill.1]
          let expectedTarget := skillsDir ++ [skill.1]
          match checkAssignment fs expectedPath expectedTarget with
          | .healthy => st
          | .rogue =>
              ({ st.1 with rogue := st.1.rogue ++ [⟨skill.1, agentId, expectedPath⟩] }, false)
          | .brokenMissing =>
              ({ st.1 with broken := st.1.broken ++
                  [⟨skill.1, agentId, expectedPath, "symlink missing"⟩] }, false)
          | .brokenTargetMissing =>
              ({ st.1 with broken := st.1.broken ++
                  [⟨skill.1, agentId, expectedPath, "target missing"⟩] }, false)
          | .brokenWrongTarget t =>
              ({ st.1 with broken := st.1.broken ++
                  [⟨skill.1, agentId, expectedPath,
                    "wrong target: " ++ String.intercalate "/" t⟩] }, false)
        else st) (results, true)
    if checked.2 then { checked.1 with healthy := checked.1.healthy ++ [skill.1] }
    else checked.1) ⟨[], [], []⟩

/-! ## Snapshot store (`src/core/snapshot.ts`)

The current instant is a UTC calendar tuple (what `toISOString`
prints).  `manifest.created` holds that instant: the source stores
the ISO-8601 string and orders manifests by `new Date(s).getTime()`,
and for valid instants that ordering coincides with lexicographic
order on the calendar tuple.  `manifest.json` files are carried in a
dedicated `manifests` component keyed by snapshot id, standing for
their serialized copies inside the snapshot directories. -/

/-- A UTC instant by its calendar fields, millisecond resolution. -/
structure DateTime where
  year : Nat
  month : Nat
  day : Nat
  hour : Nat
  minute : Nat
  second : Nat
  ms : Nat
deriving Repr, DecidableEq

/-- Field ranges of a real UTC instant printable by `toISOString`
in its fixed 24-character form. -/
def DateTime.valid (d : DateTime) : Prop :=
  d.year ≤ 9999 ∧ 1 ≤ d.month ∧ d.month ≤ 12 ∧ 1 ≤ d.day ∧ d.day ≤ 31 ∧
    d.hour ≤ 23 ∧ d.minute ≤ 59 ∧ d.second ≤ 59 ∧ d.ms ≤ 999

/-- The calendar tuple, most significant field first. -/
def DateTime.key (d : DateTime) : List Nat :=
  [d.year, d.month, d.day, d.hour, d.minute, d.second, d.ms]

/-- Strict chronological order of instants. -/
def chronLt (a b : DateTime) : Prop :=
  natListCmp a.key b.key = .lt

/-- Boolean chronological comparison. -/
def chronLtB (a b : DateTime) : Bool :=
  natListCmp a.key b.key == Ordering.lt

/-- Lexicographic composition of comparison outcomes: the second
comparison only matters when the first is a tie. -/
def ordThen (o1 o2 : Ordering) : Ordering :=
  match o1 with
  | .eq => o2
  | o => o

/-- Big-endian decimal rendering of `n`, zero-padded to width `w`. -/
def padC : Nat → Nat → List Char
  | 0, _ => []
  | w + 1, n => padC w (n / 10) ++ [Nat.digitChar (n % 10)]

/-- `generateId`: `toISOString()` with `:` and `.` replaced by `-` and
the trailing `Z` sliced off — `YYYY-MM-DDTHH-mm-ss-sss`. -/
def generateId (d : DateTime) : String :=
  ⟨padC 4 d.year ++ '-' :: padC 2 d.month ++ '-' :: padC 2 d.day ++
    'T' :: padC 2 d.hour ++ '-' :: padC 2 d.minute ++ '-' :: padC 2 d.second ++
    '-' :: padC 3 d.ms⟩

/-- The code units of a string, for lexicographic comparison. -/
def strCodes (s : String) : List Nat :=
  s.data.map Char.toNat

/-- One snapshot manifest. -/
structure SnapshotManifest where
  id : String
  reason : String
  created : DateTime
  skills : List String
deriving Repr, DecidableEq

/-- The world a `SnapshotManager` acts on: the filesystem plus the
parsed manifests of the snapshot directories. -/
structure World where
  fs : FS
  manifests : List SnapshotManifest
deriving Repr, DecidableEq

/-- The sort relation of `listSnapshots`: the comparator
`(a, b) => getTime(b.created) - getTime(a.created)` accepts `a`
before `b` exactly when `a` is not strictly older than `b`. -/
def manifestGe (a b : SnapshotManifest) : Prop :=
  chronLtB a.created b.created = false

instance : DecidableRel manifestGe :=
  fun a b => instDecidableEqBool (chronLtB a.created b.created) false

/-- `listSnapshots`: every parseable manifest, newest first (stable in
store order for ties). -/
def listSnapshots (w : World) : List SnapshotManifest :=
  List.insertionSort manifestGe w.manifests

/-- `getLatestSnapshot`: head of the newest-first listing. -/
def getLatestSnapshot (w : World) : Option SnapshotManifest :=
  (listSnapshots w).head?

/-- `pruneOldSnapshots`: when more than `maxCount` manifests exist,
delete every snapshot past the `maxCount` newest — its directory
(copied content and manifest) is removed entirely. -/
def pruneOldSnapshots (snapshotsDir : Path) (maxCount : Nat) (w : World) : World :=
  let list := listSnapshots w
  if list.length ≤ maxCount then w
  else
    (list.drop maxCount).foldl (fun acc m =>
      ⟨rmFS acc.fs (snapshotsDir ++ [m.id]),
        acc.manifests.filter (fun m2 => decide (m2.id ≠ m.id))⟩) w

/-- `basename` of a path: its last segment. -/
def basename (p : Path) : String :=
  p.getLast?.getD ""

/-- `createSnapshot`: copy each input directory to
`snapshots/{id}/skills/{basename}`, record the manifest, then prune. -/
def createSnapshot (snapshotsDir : Path) (maxCount : Nat) (w : World)
    (now : DateTime) (skillPaths : List Path) (reason : String) : World :=
  let id := generateId now
  let skillsBackupDir := snapshotsDir ++ [id, "skills"]
  let afterCopy := skillPaths.foldl (fun fs p =>
    cpFS fs p (skillsBackupDir ++ [basename p])) w.fs
  let skillNames := skillPaths.map basename
  let m : SnapshotManifest := ⟨id, reason, now, skillNames⟩
  pruneOldSnapshots snapshotsDir maxCount ⟨afterCopy, w.manifests ++ [m]⟩

/-- `restore(id, targetDir)`: for each manifest skill name, remove any
entry at `targetDir/{name}` (missing is fine) and copy the snapshot
content into its place; a missing manifest is an error. -/
def restore (snapshotsDir : Path) (w : World) (snapshotId : String)
    (targetDir : Path) : Except String World :=
  match w.manifests.find? (fun m => decide (m.id = snapshotId)) with
  | none => .error ("ENOENT: no manifest for " ++ snapshotId)
  | some manifest =>
    .ok ⟨manifest.skills.foldl (fun fs skillName =>
      let sourcePath := snapshotsDir ++ [snapshotId, "skills", skillName]
      let targetPath := targetDir ++ [skillName]
      cpFS (rmFS fs targetPath) sourcePath targetPath) w.fs, w.manifests⟩

/-- A whole run: fold `createSnapshot` over a list of
`(instant, paths, reason)` creation requests. -/
def runSnapshots (snapshotsDir : Path) (maxCount : Nat) (w : World)
    (reqs : List (DateTime × List Path × String)) : World :=
  reqs.foldl (fun acc r => createSnapshot snapshotsDir maxCount acc r.1 r.2.1 r.2.2) w

/-- The on-disk directory of one skill inside an agent's skills root
(`join(expandPath(agent.globalPath), skillName)`). -/
def skillDir (ag : Agent) (skillName : String) : Path :=
  ag.globalPath ++ [skillName]

/-- Two directories are disjoint when neither is a prefix of the
other, so mutating below one cannot affect the other's subtree. -/
def disjointDirs (a b : Path) : Prop :=
  a.isPrefixOf b = false ∧ b.isPrefixOf a = false

/-- The comparator the SPEC prescribes for `hashTree` entries: raw
byte/lexicographic order on the relative path. -/
def specByteLe (f g : SkillFile) : Prop :=
  byteLe f.path g.path = true

instance : DecidableRel specByteLe :=
  fun f g => instDecidableEqBool (byteLe f.path g.path) true

/-- Modelled from the spec (section 4.1 steps 3 and 4): the tree hash
with the `(relativePath, digest)` pairs sorted in byte/lexicographic
path order before being joined as `"path:digest"` lines. -/
def specTreeHash (H : String → String) (fs : FS) (dir : Path) : String :=
  H (String.intercalate "\n"
    ((List.insertionSort specByteLe (collectFiles H fs dir)).map
      (fun f => f.path ++ ":" ++ f.hash)))

/-- Example configuration: two detected agents. -/
def exAgents : Agents :=
  [("a", ⟨["agents", "a"], true⟩), ("b", ⟨["agents", "b"], true⟩)]

/-- Example filesystem: both agents already hold an identical copy of
skill `foo`. -/
def exFS : FS :=
  [(["agents", "a", "foo", "SKILL.md"], "c"),
    (["agents", "b", "foo", "SKILL.md"], "c")]

/-! ## Helper lemmas: three-way list comparison -/

theorem natListCmp_self (l : List Nat) : natListCmp l l = .eq := by
  induction l with
  | nil => rfl
  | cons a as ih => simp [natListCmp, ih]

theorem natListCmp_eq_iff (a b : List Nat) : natListCmp a b = .eq ↔ a = b := by
  induction a generalizing b with
  | nil => cases b <;> simp [natListCmp]
  | cons x xs ih =>
    cases b with
    | nil => simp [natListCmp]
    | cons y ys =>
      by_cases h1 : x < y
      · simp only [natListCmp, if_pos h1]
        constructor
        · intro h; cases h
        · intro h
          have : x = y := (List.cons.injEq x xs y ys ▸ h).1
          omega
      · by_cases h2 : y < x
        · simp only [natListCmp, if_neg h1, if_pos h2]
          constructor
          · intro h; cases h
          · intro h
            have : x = y := (List.cons.injEq x xs y ys ▸ h).1
            omega
        · have hxy : x = y := by omega
          simp [natListCmp, if_neg h1, if_neg h2, ih, hxy]

theorem natListCmp_swap (a b : List Nat) : natListCmp b a = (natListCmp a b).swap := by
  induction a generalizing b with
  | nil => cases b <;> simp [natListCmp, Ordering.swap]
  | cons x xs ih =>
    cases b with
    | nil => simp [natListCmp, Ordering.swap]
    | cons y ys =>
      by_cases h1 : x < y
      · have h2 : ¬ y < x := by omega
        simp [natListCmp, h1, h2, Ordering.swap]
      · by_cases h2 : y < x
        · simp [natListCmp, h1, h2, Ordering.swap]
        · simp [natListCmp, h1, h2, ih]

theorem natListCmp_lt_trans (a b c : List Nat) (hab : natListCmp a b = .lt)
    (hbc : natListCmp b c = .lt) : natListCmp a c = .lt := by
  induction a generalizing b c with
  | nil =>
    cases b with
    | nil => cases c <;> simp_all [natListCmp]
    | cons y ys => cases c <;> simp_all [natListCmp]
  | cons x xs ih =>
    cases b with
    | nil => simp [natListCmp] at hab
    | cons y ys =>
      cases c with
      | nil => simp [natListCmp] at hbc
      | cons z zs =>
        simp only [natListCmp] at hab hbc ⊢
        by_cases hxy : x < y
        · by_cases hyz : y < z
          · have : x < z := by omega
            simp [this]
          · by_cases hzy : z < y
            · simp [hyz, hzy] at hbc
            · have : y = z := by omega
              subst this
              simp [hxy]
        · by_cases hyx : y < x
          · simp [hxy, hyx] at hab
          · have hx : x = y := by omega
            subst hx
            by_cases hyz : x < z
            · simp [hyz]
            · by_cases hzy : z < x
              · simp [hyz, hzy] at hbc
              · have : x = z := by omega
                subst this
                simp [hxy] at hab hbc ⊢
                exact ih ys zs hab hbc

theorem natListCmp_ne_gt (a b : List Nat) (h : natListCmp a b ≠ .gt) :
    natListCmp a b = .lt ∨ a = b := by
  cases hab : natListCmp a b with
  | lt => exact Or.inl rfl
  | eq => exact Or.inr ((natListCmp_eq_iff a b).1 hab)
  | gt => exact absurd hab h

theorem natListCmp_le_trans (a b c : List Nat) (hab : natListCmp a b ≠ .gt)
    (hbc : natListCmp b c ≠ .gt) : natListCmp a c ≠ .gt := by
  rcases natListCmp_ne_gt a b hab with h1 | h1
  · rcases natListCmp_ne_gt b c hbc with h2 | h2
    · simp [natListCmp_lt_trans a b c h1 h2]
    · subst h2; simp [h1]
  · subst h1; exact hbc

/-! ## Helper lemmas: link-aware filesystem primitives -/

theorem lookupL_insertL_self (fs : LFS) (p : Path) (n : Node) :
    lookupL (insertL fs p n) p = some n := by
  simp [lookupL, insertL, List.find?]

theorem lookupL_eraseL_ne (fs : LFS) (p q : Path) (h : q ≠ p) :
    lookupL (eraseL fs p) q = lookupL fs q := by
  induction fs with
  | nil => rfl
  | cons e rest ih =>
    by_cases he : e.1 = p
    · have hq : ¬ e.1 = q := by rw [he]; exact fun hh => h hh.symm
      have h1 : (decide (e.1 ≠ p)) = false := by simp [he]
      have h2 : (decide (e.1 = q)) = false := by simp [hq]
      simp only [eraseL, lookupL, List.filter_cons, h1, if_false]
      rw [List.find?_cons_of_neg rest (by simp [hq])]
      exact ih
    · have h1 : (decide (e.1 ≠ p)) = true := by simp [he]
      by_cases heq : e.1 = q
      · simp only [eraseL, lookupL, List.filter_cons, h1, if_true]
        rw [List.find?_cons_of_pos _ (by simp [heq]),
          List.find?_cons_of_pos rest (by simp [heq])]
      · simp only [eraseL, lookupL, List.filter_cons, h1, if_true]
        rw [List.find?_cons_of_neg _ (by simp [heq]),
          List.find?_cons_of_neg rest (by simp [heq])]
        exact ih

theorem lookupL_insertL_ne (fs : LFS) (p q : Path) (n : Node) (h : q ≠ p) :
    lookupL (insertL fs p n) q = lookupL fs q := by
  have hne : ¬ p = q := fun hh => h hh.symm
  calc lookupL (insertL fs p n) q
      = lookupL (eraseL fs p) q := by simp [insertL, lookupL, List.find?, hne]
    _ = lookupL fs q := lookupL_eraseL_ne fs p q h

theorem mem_prefixesOf_length (d : Path) (q : Path) (h : q ∈ prefixesOf d) :
    q.length ≤ d.length := by
  induction d generalizing q with
  | nil => simp [prefixesOf] at h
  | cons a rest ih =>
    simp only [prefixesOf, List.mem_cons, List.mem_map] at h
    rcases h with h | ⟨p, hp, rfl⟩
    · subst h; simp
    · have := ih p hp
      simp only [List.length_cons]
      omega

theorem prefixesOf_dropLast_ne (tgt : Path) (q : Path)
    (h : q ∈ prefixesOf tgt.dropLast) : q ≠ tgt := by
  cases htgt : tgt with
  | nil => subst htgt; simp [prefixesOf] at h
  | cons a rest =>
    intro hq
    have hlen := mem_prefixesOf_length _ _ h
    rw [List.length_dropLast] at hlen
    subst hq
    subst htgt
    simp at hlen

theorem mkdirpGo_lookup_preserved (l : List Path) (fs : LFS) (p : Path)
    (h : ∀ q ∈ l, q ≠ p) : lookupL (mkdirpGo fs l).2 p = lookupL fs p := by
  induction l generalizing fs with
  | nil => rfl
  | cons q rest ih =>
    have hq : q ≠ p := h q (List.mem_cons_self q rest)
    have hrest : ∀ r ∈ rest, r ≠ p := fun r hr => h r (List.mem_cons_of_mem q hr)
    simp only [mkdirpGo]
    cases hl : lookupL fs q with
    | none =>
      rw [ih _ hrest, lookupL_insertL_ne _ _ _ _ (fun hh => hq hh.symm)]
    | some node =>
      cases node with
      | dir => exact ih _ hrest
      | file => rfl
      | symlink t => rfl

theorem mkdirpGo_preserves_dir (l : List Path) (fs : LFS) (q : Path)
    (hq : lookupL fs q = some .dir) : lookupL (mkdirpGo fs l).2 q = some .dir := by
  induction l generalizing fs with
  | nil => exact hq
  | cons p rest ih =>
    simp only [mkdirpGo]
    cases hl : lookupL fs p with
    | none =>
      apply ih
      have hne : q ≠ p := fun hh => by rw [hh] at hq; rw [hq] at hl; cases hl
      rw [lookupL_insertL_ne _ _ _ _ hne]
      exact hq
    | some node =>
      cases node with
      | dir => exact ih _ hq
      | file => exact hq
      | symlink t => exact hq

theorem mkdirpGo_post (l : List Path) (fs : LFS)
    (h : (mkdirpGo fs l).1 = none) :
    ∀ q ∈ l, lookupL (mkdirpGo fs l).2 q = some .dir := by
  induction l generalizing fs with
  | nil => intro q hq; simp at hq
  | cons p rest ih =>
    intro q hq
    simp only [mkdirpGo] at h ⊢
    cases hl : lookupL fs p with
    | none =>
      rw [hl] at h
      rcases List.mem_cons.1 hq with rfl | hq2
      · exact mkdirpGo_preserves_dir rest _ q (lookupL_insertL_self fs q .dir)
      · exact ih _ h q hq2
    | some node =>
      cases node with
      | dir =>
        rw [hl] at h
        rcases List.mem_cons.1 hq with rfl | hq2
        · exact mkdirpGo_preserves_dir rest fs q hl
        · exact ih fs h q hq2
      | file => rw [hl] at h; cases h
      | symlink t => rw [hl] at h; cases h

theorem mkdirpGo_noop (l : List Path) (fs : LFS)
    (h : ∀ q ∈ l, lookupL fs q = some .dir) : mkdirpGo fs l = (none, fs) := by
  induction l with
  | nil => rfl
  | cons p rest ih =>
    have hp := h p (List.mem_cons_self p rest)
    simp only [mkdirpGo, hp]
    exact ih (fun q hq => h q (List.mem_cons_of_mem p hq))

/-- C10: removeSymlink never deletes a real directory — on a directory
it errors and leaves the filesystem untouched; it unlinks exactly the
binding of a symlink or regular file; and a missing path is silent
success with no change. -/
theorem removeSymlink_spec (fs : LFS) (p : Path) :
    (lookupL fs p = some .dir →
      (removeSymlink p fs).err.isSome = true ∧ (removeSymlink p fs).fs = fs) ∧
    (∀ t, lookupL fs p = some (.symlink t) →
      removeSymlink p fs = ⟨none, eraseL fs p⟩) ∧
    (lookupL fs p = some .file →
      removeSymlink p fs = ⟨none, eraseL fs p⟩) ∧
    (lookupL fs p = none →
      removeSymlink p fs = ⟨none, fs⟩) := by
  refine ⟨fun h => ?_, fun t h => ?_, fun h => ?_, fun h => ?_⟩ <;>
    simp [removeSymlink, h]

/-- Closed instance of `removeSymlink_spec` at concrete filesystems,
one per discharged hypothesis. -/
theorem removeSymlink_spec_witness :
    ((removeSymlink ["home", "d"] [(["home", "d"], Node.dir)]).err.isSome = true ∧
      (removeSymlink ["home", "d"] [(["home", "d"], Node.dir)]).fs =
        [(["home", "d"], Node.dir)]) ∧
    removeSymlink ["home", "f"] [(["home", "f"], Node.file)] =
      ⟨none, eraseL [(["home", "f"], Node.file)] ["home", "f"]⟩ ∧
    removeSymlink ["gone"] [] = ⟨none, []⟩ :=
  ⟨(removeSymlink_spec [(["home", "d"], Node.dir)] ["home", "d"]).1 rfl,
    (removeSymlink_spec [(["home", "f"], Node.file)] ["home", "f"]).2.2.1 rfl,
    (removeSymlink_spec [] ["gone"]).2.2.2 rfl⟩

/-- C1 counterexample: with a real (non-symlink) regular file at the
target, `createSymlink` does not fail — it silently unlinks the file
and creates the symlink in its place. -/
theorem createSymlink_realfile_cex :
    (createSymlink ["store", "foo"] ["agents", "a", "foo"]
      [(["agents"], Node.dir), (["agents", "a"], Node.dir),
        (["agents", "a", "foo"], Node.file)]).err = none ∧
    lookupL (createSymlink ["store", "foo"] ["agents", "a", "foo"]
      [(["agents"], Node.dir), (["agents", "a"], Node.dir),
        (["agents", "a", "foo"], Node.file)]).fs ["agents", "a", "foo"] =
      some (Node.symlink ["store", "foo"]) := by
  constructor <;> rfl

/-- C1 (amended): when parent creation succeeds and the target exists
as a real directory, `createSymlink` fails with the managed-path
conflict error and the directory survives; a pre-existing real
regular file, however, is unlinked and replaced by the symlink
without error. -/
theorem createSymlink_existing_target (fs : LFS) (src tgt : Path)
    (hmk : (mkdirp fs tgt.dropLast).1 = none) :
    (lookupL fs tgt = some .dir →
      (createSymlink src tgt fs).err =
        some "Cannot create symlink: target is a directory (not managed by simba)" ∧
      lookupL (createSymlink src tgt fs).fs tgt = some .dir) ∧
    (lookupL fs tgt = some .file →
      (createSymlink src tgt fs).err = none ∧
      lookupL (createSymlink src tgt fs).fs tgt = some (.symlink src)) := by
  rcases hM : mkdirp fs tgt.dropLast with ⟨e1, fs1⟩
  rw [hM] at hmk
  simp only at hmk
  subst hmk
  have hpres : lookupL fs1 tgt = lookupL fs tgt := by
    have h2 : fs1 = (mkdirpGo fs (prefixesOf tgt.dropLast)).2 := by
      rw [show mkdirpGo fs (prefixesOf tgt.dropLast) = (none, fs1) from hM]
    rw [h2]
    exact mkdirpGo_lookup_preserved _ fs tgt (fun q hq => prefixesOf_dropLast_ne tgt q hq)
  constructor
  · intro hdir
    have h1 : lookupL fs1 tgt = some .dir := by rw [hpres, hdir]
    have hg : getSymlinkTarget fs1 tgt = none := by simp [getSymlinkTarget, h1]
    simp [createSymlink, hM, h1, hg]
  · intro hfile
    have h1 : lookupL fs1 tgt = some .file := by rw [hpres, hfile]
    have hg : getSymlinkTarget fs1 tgt = none := by simp [getSymlinkTarget, h1]
    simp [createSymlink, hM, h1, hg, lookupL_insertL_self]

/-- Closed instance of `createSymlink_existing_target` at a concrete
filesystem whose target is a real directory. -/
theorem createSymlink_existing_target_witness :
    (createSymlink ["store", "x"] ["agents", "a", "x"]
      [(["agents"], Node.dir), (["agents", "a"], Node.dir),
        (["agents", "a", "x"], Node.dir)]).err =
      some "Cannot create symlink: target is a directory (not managed by simba)" ∧
    lookupL (createSymlink ["store", "x"] ["agents", "a", "x"]
      [(["agents"], Node.dir), (["agents", "a"], Node.dir),
        (["agents", "a", "x"], Node.dir)]).fs ["agents", "a", "x"] = some Node.dir :=
  (createSymlink_existing_target
    [(["agents"], Node.dir), (["agents", "a"], Node.dir),
      (["agents", "a", "x"], Node.dir)]
    ["store", "x"] ["agents", "a", "x"] (by decide)).1 (by decide)

/-- C8 counterexample: with a real directory at the target, the first
call errors, and the second call with identical arguments errors as
well — the second call is not error-free for every `(S, T)`. -/
theorem createSymlink_twice_cex :
    (createSymlink ["store", "x"] ["agents", "a"]
      [(["agents"], Node.dir), (["agents", "a"], Node.dir)]).err.isSome = true ∧
    (createSymlink ["store", "x"] ["agents", "a"]
      (createSymlink ["store", "x"] ["agents", "a"]
        [(["agents"], Node.dir), (["agents", "a"], Node.dir)]).fs).err.isSome = true := by
  constructor <;> rfl

/-- C8 (amended): when the first `createSymlink(S, T)` call succeeds,
calling it again with the same arguments succeeds too and leaves the
filesystem exactly as the first call left it. -/
theorem createSymlink_idempotent (fs : LFS) (src tgt : Path)
    (h : (createSymlink src tgt fs).err = none) :
    createSymlink src tgt (createSymlink src tgt fs).fs =
      ⟨none, (createSymlink src tgt fs).fs⟩ := by
  have hqs : ∀ q ∈ prefixesOf tgt.dropLast, q ≠ tgt :=
    fun q hq => prefixesOf_dropLast_ne tgt q hq
  have key : ∀ fs2 : LFS, lookupL fs2 tgt = some (.symlink src) →
      (∀ q ∈ prefixesOf tgt.dropLast, lookupL fs2 q = some .dir) →
      createSymlink src tgt fs2 = ⟨none, fs2⟩ := by
    intro fs2 hA hB
    have hM2 : mkdirp fs2 tgt.dropLast = (none, fs2) := mkdirpGo_noop _ _ hB
    have hg : getSymlinkTarget fs2 tgt = some src := by simp [getSymlinkTarget, hA]
    simp [createSymlink, hM2, hA, hg]
  rcases hM : mkdirp fs tgt.dropLast with ⟨e1, fs1⟩
  cases e1 with
  | some e => exfalso; simp [createSymlink, hM] at h
  | none =>
    have hpost : ∀ q ∈ prefixesOf tgt.dropLast, lookupL fs1 q = some .dir := by
      have hp := mkdirpGo_post (prefixesOf tgt.dropLast) fs
        (by rw [show mkdirpGo fs (prefixesOf tgt.dropLast) = (none, fs1) from hM])
      rw [show mkdirpGo fs (prefixesOf tgt.dropLast) = (none, fs1) from hM] at hp
      exact hp
    cases hT : lookupL fs1 tgt with
    | none =>
      have hr : createSymlink src tgt fs = ⟨none, insertL fs1 tgt (.symlink src)⟩ := by
        simp [createSymlink, hM, hT, getSymlinkTarget]
      rw [hr]
      exact key _ (lookupL_insertL_self fs1 tgt _)
        (fun q hq => by
          rw [lookupL_insertL_ne _ _ _ _ (hqs q hq)]; exact hpost q hq)
    | some node =>
      by_cases hG : getSymlinkTarget fs1 tgt = some src
      · have hA : lookupL fs1 tgt = some (.symlink src) := by
          cases node with
          | file => simp [getSymlinkTarget, hT] at hG
          | dir => simp [getSymlinkTarget, hT] at hG
          | symlink t =>
            have : t = src := by simpa [getSymlinkTarget, hT] using hG
            rw [hT, this]
        have hr : createSymlink src tgt fs = ⟨none, fs1⟩ := by
          simp [createSymlink, hM, hT, hG]
        rw [hr]
        exact key _ hA hpost
      · cases node with
        | dir => exfalso; simp [createSymlink, hM, hT, hG] at h
        | file =>
          have hr : createSymlink src tgt fs =
              ⟨none, insertL (eraseL fs1 tgt) tgt (.symlink src)⟩ := by
            simp [createSymlink, hM, hT, hG]
          rw [hr]
          exact key _ (lookupL_insertL_self _ tgt _)
            (fun q hq => by
              rw [lookupL_insertL_ne _ _ _ _ (hqs q hq),
                lookupL_eraseL_ne _ _ _ (hqs q hq)]
              exact hpost q hq)
        | symlink t =>
          have hr : createSymlink src tgt fs =
              ⟨none, insertL (eraseL fs1 tgt) tgt (.symlink src)⟩ := by
            simp [createSymlink, hM, hT, hG]
          rw [hr]
          exact key _ (lookupL_insertL_self _ tgt _)
            (fun q hq => by
              rw [lookupL_insertL_ne _ _ _ _ (hqs q hq),
                lookupL_eraseL_ne _ _ _ (hqs q hq)]
              exact hpost q hq)

/-- Closed instance of `createSymlink_idempotent` at a concrete
filesystem where the first call succeeds. -/
theorem createSymlink_idempotent_witness :
    createSymlink ["store", "x"] ["agents", "x"]
        (createSymlink ["store", "x"] ["agents", "x"] [(["agents"], Node.dir)]).fs =
      ⟨none, (createSymlink ["store", "x"] ["agents", "x"]
        [(["agents"], Node.dir)]).fs⟩ :=
  createSymlink_idempotent [(["agents"], Node.dir)] ["store", "x"] ["agents", "x"]
    (by decide)

/-! ## Helper lemmas: association lists, dedup, status -/

theorem getAssoc_cons {α β : Type} [DecidableEq α] (e : α × β) (rest : List (α × β))
    (k : α) : getAssoc (e :: rest) k =
      if e.1 = k then some e.2 else getAssoc rest k := by
  by_cases h : e.1 = k
  · rw [if_pos h]
    unfold getAssoc
    rw [List.find?_cons_of_pos rest (by simp [h])]
    rfl
  · rw [if_neg h]
    unfold getAssoc
    rw [List.find?_cons_of_neg rest (by simp [h])]

theorem getAssoc_mem {α β : Type} [DecidableEq α] (m : List (α × β)) (k : α) (v : β)
    (h : getAssoc m k = some v) : (k, v) ∈ m := by
  induction m with
  | nil => cases h
  | cons e rest ih =>
    rw [getAssoc_cons] at h
    by_cases hek : e.1 = k
    · rw [if_pos hek] at h
      have hkv : (k, v) = e := by
        cases e
        simp_all
      rw [hkv]
      exact List.mem_cons_self e rest
    · rw [if_neg hek] at h
      exact List.mem_cons_of_mem e (ih h)

theorem mem_getAssoc {α β : Type} [DecidableEq α] (m : List (α × β))
    (hnd : (m.map Prod.fst).Nodup) (k : α) (v : β) (h : (k, v) ∈ m) :
    getAssoc m k = some v := by
  induction m with
  | nil => cases h
  | cons e rest ih =>
    rcases List.mem_cons.1 h with rfl | hr
    · rw [getAssoc_cons, if_pos rfl]
    · have hk : e.1 ≠ k := by
        intro hek
        have hkm : k ∈ rest.map Prod.fst := List.mem_map_of_mem Prod.fst hr
        rw [List.map_cons, List.nodup_cons, hek] at hnd
        exact hnd.1 hkm
      have hnd2 : (rest.map Prod.fst).Nodup := by
        rw [List.map_cons, List.nodup_cons] at hnd
        exact hnd.2
      rw [getAssoc_cons, if_neg hk]
      exact ih hnd2 hr

theorem mem_setAssoc {α β : Type} [DecidableEq α] (m : List (α × β)) (k : α) (v : β)
    (c : α × β) (hc : c ∈ setAssoc m k v) : c = (k, v) ∨ (c ∈ m ∧ c.1 ≠ k) := by
  unfold setAssoc at hc
  by_cases hany : m.any (fun e => decide (e.1 = k)) = true
  · rw [if_pos hany] at hc
    rcases List.mem_map.1 hc with ⟨e, he, hfe⟩
    by_cases hek : e.1 = k
    · left; rw [← hfe, if_pos hek]
    · right
      rw [← hfe, if_neg hek]
      exact ⟨he, hek⟩
  · rw [if_neg hany] at hc
    rcases List.mem_append.1 hc with hm | hs
    · right
      refine ⟨hm, ?_⟩
      intro hck
      apply hany
      rw [List.any_eq_true]
      exact ⟨c, hm, by simp [hck]⟩
    · left; simpa using hs

theorem setAssoc_ne_nil {α β : Type} [DecidableEq α] (m : List (α × β)) (k : α)
    (v : β) : setAssoc m k v ≠ [] := by
  unfold setAssoc
  by_cases hany : m.any (fun e => decide (e.1 = k)) = true
  · rw [if_pos hany]
    rcases List.any_eq_true.1 hany with ⟨e, he, _⟩
    intro hmap
    rw [List.map_eq_nil_iff] at hmap
    rw [hmap] at he
    cases he
  · rw [if_neg hany]
    simp

theorem setAssoc_keys {α β : Type} [DecidableEq α] (m : List (α × β)) (k : α) (v : β)
    (hnd : (m.map Prod.fst).Nodup) : ((setAssoc m k v).map Prod.fst).Nodup := by
  unfold setAssoc
  by_cases hany : m.any (fun e => decide (e.1 = k)) = true
  · rw [if_pos hany]
    have hmm : (m.map (fun e => if e.1 = k then (k, v) else e)).map Prod.fst =
        m.map Prod.fst := by
      rw [List.map_map]
      apply List.map_congr_left
      intro e _
      by_cases hek : e.1 = k
      · simp [hek]
      · simp [hek]
    rw [hmm]
    exact hnd
  · rw [if_neg hany]
    have hkm : k ∉ m.map Prod.fst := by
      intro hkmem
      rcases List.mem_map.1 hkmem with ⟨e, he, hek⟩
      exact hany (List.any_eq_true.2 ⟨e, he, by simp [hek]⟩)
    simp only [List.map_append, List.map_cons, List.map_nil]
    rw [List.nodup_append]
    exact ⟨hnd, List.nodup_singleton k, by simpa using hkm⟩

theorem getAssoc_append_not_mem {α β : Type} [DecidableEq α] (m : List (α × β))
    (k : α) (v : β) (hkm : ∀ e ∈ m, e.1 ≠ k) :
    getAssoc (m ++ [(k, v)]) k = some v := by
  induction m with
  | nil => rw [List.nil_append, getAssoc_cons, if_pos rfl]
  | cons e rest ih =>
    rw [List.cons_append, getAssoc_cons, if_neg (hkm e (List.mem_cons_self e rest))]
    exact ih (fun e2 he2 => hkm e2 (List.mem_cons_of_mem e he2))

theorem getAssoc_map_replace {α β : Type} [DecidableEq α] (m : List (α × β))
    (k : α) (v : β) (hk : ∃ e ∈ m, e.1 = k) :
    getAssoc (m.map (fun e => if e.1 = k then (k, v) else e)) k = some v := by
  induction m with
  | nil => rcases hk with ⟨e, he, _⟩; cases he
  | cons e rest ih =>
    rw [List.map_cons]
    by_cases hek : e.1 = k
    · rw [if_pos hek, getAssoc_cons, if_pos rfl]
    · rw [if_neg hek, getAssoc_cons, if_neg hek]
      apply ih
      rcases hk with ⟨e0, he0, hk0⟩
      rcases List.mem_cons.1 he0 with rfl | hr
      · exact absurd hk0 hek
      · exact ⟨e0, hr, hk0⟩

theorem getAssoc_setAssoc_self {α β : Type} [DecidableEq α] (m : List (α × β))
    (k : α) (v : β) : getAssoc (setAssoc m k v) k = some v := by
  unfold setAssoc
  by_cases hany : m.any (fun e => decide (e.1 = k)) = true
  · rw [if_pos hany]
    rcases List.any_eq_true.1 hany with ⟨e0, he0, hk0⟩
    exact getAssoc_map_replace m k v ⟨e0, he0, by simpa using hk0⟩
  · rw [if_neg hany]
    apply getAssoc_append_not_mem
    intro e he hek
    exact hany (List.any_eq_true.2 ⟨e, he, by simp [hek]⟩)

theorem mem_dedupFirst {α : Type} [DecidableEq α] (l : List α) (a : α) :
    a ∈ dedupFirst l ↔ a ∈ l := by
  have aux : ∀ acc : List α,
      (a ∈ l.foldl (fun acc b => if b ∈ acc then acc else acc ++ [b]) acc ↔
        a ∈ acc ∨ a ∈ l) := by
    induction l with
    | nil => intro acc; simp
    | cons b rest ih =>
      intro acc
      simp only [List.foldl_cons]
      by_cases hb : b ∈ acc
      · rw [if_pos hb, ih acc]
        constructor
        · rintro (h | h)
          · exact Or.inl h
          · exact Or.inr (List.mem_cons_of_mem b h)
        · rintro (h | h)
          · exact Or.inl h
          · rcases List.mem_cons.1 h with rfl | h2
            · exact Or.inl hb
            · exact Or.inr h2
      · rw [if_neg hb, ih (acc ++ [b])]
        constructor
        · rintro (h | h)
          · rcases List.mem_append.1 h with h2 | h2
            · exact Or.inl h2
            · simp at h2
              simp [h2]
          · exact Or.inr (List.mem_cons_of_mem b h)
        · rintro (h | h)
          · exact Or.inl (List.mem_append.2 (Or.inl h))
          · rcases List.mem_cons.1 h with rfl | h2
            · exact Or.inl (List.mem_append.2 (Or.inr (by simp)))
            · exact Or.inr h2
  simpa using aux []

theorem dedupFirst_nodup {α : Type} [DecidableEq α] (l : List α) :
    (dedupFirst l).Nodup := by
  have aux : ∀ acc : List α, acc.Nodup →
      (l.foldl (fun acc b => if b ∈ acc then acc else acc ++ [b]) acc).Nodup := by
    induction l with
    | nil => intro acc h; simpa using h
    | cons b rest ih =>
      intro acc hacc
      simp only [List.foldl_cons]
      by_cases hb : b ∈ acc
      · rw [if_pos hb]; exact ih acc hacc
      · rw [if_neg hb]
        apply ih
        rw [List.nodup_append]
        exact ⟨hacc, List.nodup_singleton b, by simpa using hb⟩
  exact aux [] List.nodup_nil

theorem nodup_all_eq {α : Type} (d : List α) (z : α) (hnd : d.Nodup) (hne : d ≠ [])
    (hz : ∀ x ∈ d, x = z) : d = [z] := by
  cases d with
  | nil => exact absurd rfl hne
  | cons y ys =>
    have hy : y = z := hz y (List.mem_cons_self y ys)
    subst hy
    cases ys with
    | nil => rfl
    | cons w ws =>
      have hw : w = y := hz w (by simp)
      rw [List.nodup_cons] at hnd
      exact absurd (by simp [hw]) hnd.1

theorem dedupFirst_length_one {α : Type} [DecidableEq α] (l : List α) (hne : l ≠ []) :
    (dedupFirst l).length = 1 ↔ ∀ x ∈ l, ∀ y ∈ l, x = y := by
  constructor
  · intro h
    rcases List.length_eq_one.1 h with ⟨z, hz⟩
    intro x hx y hy
    have hx2 : x ∈ dedupFirst l := (mem_dedupFirst l x).2 hx
    have hy2 : y ∈ dedupFirst l := (mem_dedupFirst l y).2 hy
    rw [hz] at hx2 hy2
    simp at hx2 hy2
    rw [hx2, hy2]
  · intro h
    rcases List.exists_mem_of_ne_nil l hne with ⟨z, hz⟩
    have hzz : dedupFirst l = [z] := by
      apply nodup_all_eq _ z (dedupFirst_nodup l)
      · intro hd
        have := (mem_dedupFirst l z).2 hz
        rw [hd] at this
        cases this
      · intro x hx
        exact h x ((mem_dedupFirst l x).1 hx) z hz
    rw [hzz]
    rfl

theorem computeStatus_spec (inner : List (String × PA))
    (hall : ∀ c ∈ inner, c.2.present = true) :
    (computeStatus inner = .missing ↔ inner.length = 0) ∧
    (computeStatus inner = .unique ↔ inner.length = 1) ∧
    (computeStatus inner = .synced ↔ 2 ≤ inner.length ∧
      ∀ c1 ∈ inner, ∀ c2 ∈ inner, c1.2.hash = c2.2.hash) ∧
    (computeStatus inner = .conflict ↔ 2 ≤ inner.length ∧
      ∃ c1 ∈ inner, ∃ c2 ∈ inner, c1.2.hash ≠ c2.2.hash) := by
  have hfil : inner.filter (fun e => e.2.present) = inner :=
    List.filter_eq_self.2 hall
  by_cases h0 : inner.length = 0
  · have hstat : computeStatus inner = .missing := by
      unfold computeStatus
      rw [hfil, if_pos h0]
    refine ⟨by simp [hstat, h0], ?_, ?_, ?_⟩
    · rw [hstat]
      constructor
      · intro h; cases h
      · intro h; omega
    · rw [hstat]
      constructor
      · intro h; cases h
      · rintro ⟨h, -⟩; omega
    · rw [hstat]
      constructor
      · intro h; cases h
      · rintro ⟨h, -⟩; omega
  · by_cases h1 : inner.length = 1
    · have hstat : computeStatus inner = .unique := by
        unfold computeStatus
        rw [hfil, if_neg h0, if_pos h1]
      refine ⟨?_, by simp [hstat, h1], ?_, ?_⟩
      · rw [hstat]
        constructor
        · intro h; cases h
        · intro h; omega
      · rw [hstat]
        constructor
        · intro h; cases h
        · rintro ⟨h, -⟩; omega
      · rw [hstat]
        constructor
        · intro h; cases h
        · rintro ⟨h, -⟩; omega
    · have h2 : 2 ≤ inner.length := by omega
      have hne : inner ≠ [] := by
        intro h; rw [h] at h0; exact h0 rfl
      have hmapne : inner.map (fun e => e.2.hash) ≠ [] := by
        simpa using hne
      have hiff : (dedupFirst (inner.map (fun e => e.2.hash))).length = 1 ↔
          ∀ c1 ∈ inner, ∀ c2 ∈ inner, c1.2.hash = c2.2.hash := by
        rw [dedupFirst_length_one _ hmapne]
        constructor
        · intro h c1 hc1 c2 hc2
          exact h _ (List.mem_map_of_mem _ hc1) _ (List.mem_map_of_mem _ hc2)
        · intro h x hx y hy
          rcases List.mem_map.1 hx with ⟨c1, hc1, rfl⟩
          rcases List.mem_map.1 hy with ⟨c2, hc2, rfl⟩
          exact h c1 hc1 c2 hc2
      by_cases hd : (dedupFirst (inner.map (fun e => e.2.hash))).length = 1
      · have hstat : computeStatus inner = .synced := by
          unfold computeStatus
          rw [hfil, if_neg h0, if_neg h1, if_pos hd]
        refine ⟨?_, ?_, ?_, ?_⟩
        · rw [hstat]
          constructor
          · intro h; cases h
          · intro h; omega
        · rw [hstat]
          constructor
          · intro h; cases h
          · intro h; omega
        · rw [hstat]
          exact iff_of_true rfl ⟨h2, hiff.1 hd⟩
        · rw [hstat]
          constructor
          · intro h; cases h
          · rintro ⟨-, c1, hc1, c2, hc2, hneq⟩
            exact absurd (hiff.1 hd c1 hc1 c2 hc2) hneq
      · have hstat : computeStatus inner = .conflict := by
          unfold computeStatus
          rw [hfil, if_neg h0, if_neg h1, if_neg hd]
        refine ⟨?_, ?_, ?_, ?_⟩
        · rw [hstat]
          constructor
          · intro h; cases h
          · intro h; omega
        · rw [hstat]
          constructor
          · intro h; cases h
          · intro h; omega
        · rw [hstat]
          constructor
          · intro h; cases h
          · rintro ⟨-, hall2⟩
            exact absurd (hiff.2 hall2) hd
        · rw [hstat]
          apply iff_of_true rfl
          refine ⟨h2, ?_⟩
          by_contra hno
          push_neg at hno
          exact hd (hiff.2 hno)

theorem skillFold_inv (ids : List String) (aId : String) (haId : aId ∈ ids)
    (skills : List SkillInfo) (m0 : List (String × List (String × PA)))
    (hm0 : ∀ kv ∈ m0, kv.2 ≠ [] ∧ (∀ c ∈ kv.2, c.2.present = true ∧ c.1 ∈ ids) ∧
      (kv.2.map Prod.fst).Nodup) :
    ∀ kv ∈ skills.foldl (fun m s =>
        setAssoc m s.name (setAssoc ((getAssoc m s.name).getD []) aId
          ⟨true, some s.treeHash⟩)) m0,
      kv.2 ≠ [] ∧ (∀ c ∈ kv.2, c.2.present = true ∧ c.1 ∈ ids) ∧
      (kv.2.map Prod.fst).Nodup := by
  induction skills generalizing m0 with
  | nil => exact hm0
  | cons s rest ih =>
    simp only [List.foldl_cons]
    apply ih
    intro kv hkv
    have hinner : ∀ c ∈ (getAssoc m0 s.name).getD [],
        c.2.present = true ∧ c.1 ∈ ids := by
      cases hga : getAssoc m0 s.name with
      | none => intro c hc; simp at hc
      | some i0 =>
        intro c hc
        simp only [Option.getD_some] at hc
        exact (hm0 (s.name, i0) (getAssoc_mem m0 s.name i0 hga)).2.1 c hc
    have hinnerkeys : (((getAssoc m0 s.name).getD []).map Prod.fst).Nodup := by
      cases hga : getAssoc m0 s.name with
      | none => simp
      | some i0 =>
        simp only [Option.getD_some]
        exact (hm0 (s.name, i0) (getAssoc_mem m0 s.name i0 hga)).2.2
    rcases mem_setAssoc _ _ _ _ hkv with hkv1 | ⟨hkv2, -⟩
    · rw [hkv1]
      refine ⟨setAssoc_ne_nil _ _ _, ?_, setAssoc_keys _ _ _ hinnerkeys⟩
      intro c hc
      rcases mem_setAssoc _ _ _ _ hc with hc1 | ⟨hc2, -⟩
      · rw [hc1]
        exact ⟨rfl, haId⟩
      · exact hinner c hc2
    · exact hm0 kv hkv2

theorem skillMap_inv (H : String → String) (fs : FS) (ids : List String)
    (l : Agents) (hl : ∀ e ∈ l, e.1 ∈ ids)
    (m0 : List (String × List (String × PA)))
    (hm0 : ∀ kv ∈ m0, kv.2 ≠ [] ∧ (∀ c ∈ kv.2, c.2.present = true ∧ c.1 ∈ ids) ∧
      (kv.2.map Prod.fst).Nodup) :
    ∀ kv ∈ l.foldl (fun m e =>
        (listSkillsA H fs e.1 e.2).foldl (fun m s =>
          setAssoc m s.name (setAssoc ((getAssoc m s.name).getD []) e.1
            ⟨true, some s.treeHash⟩)) m) m0,
      kv.2 ≠ [] ∧ (∀ c ∈ kv.2, c.2.present = true ∧ c.1 ∈ ids) ∧
      (kv.2.map Prod.fst).Nodup := by
  induction l generalizing m0 with
  | nil => exact hm0
  | cons e rest ih =>
    simp only [List.foldl_cons]
    apply ih (fun e2 he2 => hl e2 (List.mem_cons_of_mem e he2))
    exact skillFold_inv ids e.1 (hl e (List.mem_cons_self e rest)) _ m0 hm0

/-- C4: every row built by `buildMatrix` (each coming from a skill
seen in at least one detected agent) has a status among `unique`,
`synced`, `conflict` — never `missing` — and the status matches the
classification rule applied to the row's present cells: one present
cell is `unique`, two or more with all hashes equal is `synced`, two
or more with a differing pair is `conflict`. -/
theorem buildMatrix_status_spec (H : String → String) (fs : FS) (agents : Agents)
    (hnd : (agents.map Prod.fst).Nodup) :
    ∀ row ∈ buildMatrix H fs agents,
      row.status ≠ .missing ∧
      (row.status = .unique ↔
        (row.agents.filter (fun c => c.2.present)).length = 1) ∧
      (row.status = .synced ↔
        2 ≤ (row.agents.filter (fun c => c.2.present)).length ∧
        ∀ c1 ∈ row.agents.filter (fun c => c.2.present),
          ∀ c2 ∈ row.agents.filter (fun c => c.2.present),
            c1.2.hash = c2.2.hash) ∧
      (row.status = .conflict ↔
        2 ≤ (row.agents.filter (fun c => c.2.present)).length ∧
        ∃ c1 ∈ row.agents.filter (fun c => c.2.present),
          ∃ c2 ∈ row.agents.filter (fun c => c.2.present),
            c1.2.hash ≠ c2.2.hash) := by
  intro row hrow
  simp only [buildMatrix] at hrow
  have hrow2 := (List.Perm.mem_iff (List.perm_insertionSort rowLe _)).1 hrow
  rcases List.mem_map.1 hrow2 with ⟨kv, hkv, hrw⟩
  have hids : ∀ e ∈ agents.filter (fun e => e.2.detected),
      e.1 ∈ (agents.filter (fun e => e.2.detected)).map Prod.fst :=
    fun e he => List.mem_map_of_mem Prod.fst he
  have hinv := skillMap_inv H fs ((agents.filter (fun e => e.2.detected)).map Prod.fst)
    (agents.filter (fun e => e.2.detected)) hids [] (by intro kv h; cases h) kv hkv
  obtain ⟨hne, hcells, hkeys⟩ := hinv
  have hdetnd : ((agents.filter (fun e => e.2.detected)).map Prod.fst).Nodup :=
    List.Nodup.sublist (List.Sublist.map Prod.fst (List.filter_sublist agents)) hnd
  subst hrw
  set detA := agents.filter (fun e => e.2.detected) with hdetA
  set agentsMap := detA.map (fun e =>
    (e.1, (getAssoc kv.2 e.1).getD ⟨false, none⟩)) with hagentsMap
  have hmapkeys : agentsMap.map Prod.fst = detA.map Prod.fst := by
    rw [hagentsMap, List.map_map]
    apply List.map_congr_left
    intro e _
    rfl
  have hamnd : agentsMap.Nodup := by
    apply List.Nodup.of_map Prod.fst
    rw [hmapkeys]
    exact hdetnd
  have hpresnd : (agentsMap.filter (fun c => c.2.present)).Nodup :=
    List.Nodup.sublist (List.filter_sublist agentsMap) hamnd
  have hkvnd : kv.2.Nodup := List.Nodup.of_map Prod.fst hkeys
  have hmemiff : ∀ c, c ∈ agentsMap.filter (fun c => c.2.present) ↔ c ∈ kv.2 := by
    intro c
    constructor
    · intro hc
      have hc1 := List.mem_of_mem_filter hc
      have hc2 : c.2.present = true := by
        have := List.of_mem_filter hc
        simpa using this
      rcases List.mem_map.1 hc1 with ⟨e, he, hce⟩
      cases hga : getAssoc kv.2 e.1 with
      | none =>
        rw [hga] at hce
        rw [← hce] at hc2
        simp at hc2
      | some cell =>
        rw [hga] at hce
        simp only [Option.getD_some] at hce
        have : (e.1, cell) ∈ kv.2 := getAssoc_mem kv.2 e.1 cell hga
        rw [← hce]
        exact this
    · intro hc
      have hcid : c.1 ∈ detA.map Prod.fst := (hcells c hc).2
      rcases List.mem_map.1 hcid with ⟨e, he, hec⟩
      have hget : getAssoc kv.2 c.1 = some c.2 := by
        apply mem_getAssoc kv.2 hkeys
        simpa using hc
      apply List.mem_filter.2
      constructor
      · apply List.mem_map.2
        refine ⟨e, he, ?_⟩
        rw [hec, hget]
        simp only [Option.getD_some]
      · simp [(hcells c hc).1]
  have hperm : List.Perm (agentsMap.filter (fun c => c.2.present)) kv.2 :=
    (List.perm_ext_iff_of_nodup hpresnd hkvnd).2 hmemiff
  have hlen : (agentsMap.filter (fun c => c.2.present)).length = kv.2.length :=
    hperm.length_eq
  have hspec := computeStatus_spec kv.2 (fun c hc => (hcells c hc).1)
  refine ⟨?_, ?_, ?_, ?_⟩
  · intro h
    have h0 := hspec.1.1 h
    exact hne (List.length_eq_zero.1 h0)
  · rw [hspec.2.1, hlen]
  · rw [hspec.2.2.1, hlen]
    constructor
    · rintro ⟨h2, hall⟩
      exact ⟨h2, fun c1 hc1 c2 hc2 =>
        hall c1 ((hmemiff c1).1 hc1) c2 ((hmemiff c2).1 hc2)⟩
    · rintro ⟨h2, hall⟩
      exact ⟨h2, fun c1 hc1 c2 hc2 =>
        hall c1 ((hmemiff c1).2 hc1) c2 ((hmemiff c2).2 hc2)⟩
  · rw [hspec.2.2.2, hlen]
    constructor
    · rintro ⟨h2, c1, hc1, c2, hc2, hne2⟩
      exact ⟨h2, c1, (hmemiff c1).2 hc1, c2, (hmemiff c2).2 hc2, hne2⟩
    · rintro ⟨h2, c1, hc1, c2, hc2, hne2⟩
      exact ⟨h2, c1, (hmemiff c1).1 hc1, c2, (hmemiff c2).1 hc2, hne2⟩

/-- Closed instance of `buildMatrix_status_spec` at a concrete
two-agent filesystem whose matrix has one conflicting row. -/
theorem buildMatrix_status_spec_witness :
    (⟨"foo", [("a", ⟨true, some "SKILL.md:c1"⟩), ("b", ⟨true, some "SKILL.md:c2"⟩)],
        .conflict⟩ : SkillMatrixRow) ∈ buildMatrix id
      [(["agents", "a", "foo", "SKILL.md"], "c1"),
        (["agents", "b", "foo", "SKILL.md"], "c2")]
      [("a", ⟨["agents", "a"], true⟩), ("b", ⟨["agents", "b"], true⟩)] ∧
    ((⟨"foo", [("a", ⟨true, some "SKILL.md:c1"⟩), ("b", ⟨true, some "SKILL.md:c2"⟩)],
        .conflict⟩ : SkillMatrixRow).status ≠ .missing ∧
      ((⟨"foo", [("a", ⟨true, some "SKILL.md:c1"⟩), ("b", ⟨true, some "SKILL.md:c2"⟩)],
          .conflict⟩ : SkillMatrixRow).status = .unique ↔
        ((⟨"foo", [("a", ⟨true, some "SKILL.md:c1"⟩), ("b", ⟨true, some "SKILL.md:c2"⟩)],
          .conflict⟩ : SkillMatrixRow).agents.filter
            (fun c => c.2.present)).length = 1) ∧
      ((⟨"foo", [("a", ⟨true, some "SKILL.md:c1"⟩), ("b", ⟨true, some "SKILL.md:c2"⟩)],
          .conflict⟩ : SkillMatrixRow).status = .synced ↔
        2 ≤ ((⟨"foo", [("a", ⟨true, some "SKILL.md:c1"⟩),
            ("b", ⟨true, some "SKILL.md:c2"⟩)],
          .conflict⟩ : SkillMatrixRow).agents.filter
            (fun c => c.2.present)).length ∧
        ∀ c1 ∈ (⟨"foo", [("a", ⟨true, some "SKILL.md:c1"⟩),
            ("b", ⟨true, some "SKILL.md:c2"⟩)],
          .conflict⟩ : SkillMatrixRow).agents.filter (fun c => c.2.present),
          ∀ c2 ∈ (⟨"foo", [("a", ⟨true, some "SKILL.md:c1"⟩),
              ("b", ⟨true, some "SKILL.md:c2"⟩)],
            .conflict⟩ : SkillMatrixRow).agents.filter (fun c => c.2.present),
            c1.2.hash = c2.2.hash) ∧
      ((⟨"foo", [("a", ⟨true, some "SKILL.md:c1"⟩), ("b", ⟨true, some "SKILL.md:c2"⟩)],
          .conflict⟩ : SkillMatrixRow).status = .conflict ↔
        2 ≤ ((⟨"foo", [("a", ⟨true, some "SKILL.md:c1"⟩),
            ("b", ⟨true, some "SKILL.md:c2"⟩)],
          .conflict⟩ : SkillMatrixRow).agents.filter
            (fun c => c.2.present)).length ∧
        ∃ c1 ∈ (⟨"foo", [("a", ⟨true, some "SKILL.md:c1"⟩),
            ("b", ⟨true, some "SKILL.md:c2"⟩)],
          .conflict⟩ : SkillMatrixRow).agents.filter (fun c => c.2.present),
          ∃ c2 ∈ (⟨"foo", [("a", ⟨true, some "SKILL.md:c1"⟩),
              ("b", ⟨true, some "SKILL.md:c2"⟩)],
            .conflict⟩ : SkillMatrixRow).agents.filter (fun c => c.2.present),
            c1.2.hash ≠ c2.2.hash)) :=
  ⟨by decide,
    buildMatrix_status_spec id
      [(["agents", "a", "foo", "SKILL.md"], "c1"),
        (["agents", "b", "foo", "SKILL.md"], "c2")]
      [("a", ⟨["agents", "a"], true⟩), ("b", ⟨["agents", "b"], true⟩)]
      (by decide)
      ⟨"foo", [("a", ⟨true, some "SKILL.md:c1"⟩), ("b", ⟨true, some "SKILL.md:c2"⟩)],
        .conflict⟩
      (by decide)⟩

/-! ## Helper lemmas: files-only filesystem, copy and remove -/

theorem lookupFS_eq_getAssoc (fs : FS) (p : Path) : lookupFS fs p = getAssoc fs p :=
  rfl

theorem getAssoc_erase_ne {α β : Type} [DecidableEq α] (m : List (α × β)) (p q : α)
    (h : q ≠ p) : getAssoc (m.filter (fun e => decide (e.1 ≠ p))) q = getAssoc m q := by
  induction m with
  | nil => rfl
  | cons e rest ih =>
    rw [List.filter_cons]
    by_cases he : e.1 = p
    · rw [if_neg (by simp [he])]
      rw [getAssoc_cons, if_neg (by rw [he]; exact fun hh => h hh.symm)]
      exact ih
    · rw [if_pos (by simp [he])]
      rw [getAssoc_cons, getAssoc_cons]
      by_cases heq : e.1 = q
      · rw [if_pos heq, if_pos heq]
      · rw [if_neg heq, if_neg heq]
        exact ih

theorem lookupFS_insertFS_self (fs : FS) (p : Path) (c : String) :
    lookupFS (insertFS fs p c) p = some c := by
  show getAssoc ((p, c) :: eraseKey fs p) p = some c
  rw [getAssoc_cons, if_pos rfl]

theorem lookupFS_insertFS_ne (fs : FS) (p q : Path) (c : String) (h : q ≠ p) :
    lookupFS (insertFS fs p c) q = lookupFS fs q := by
  show getAssoc ((p, c) :: eraseKey fs p) q = getAssoc fs q
  rw [getAssoc_cons, if_neg (fun hh => h hh.symm)]
  exact getAssoc_erase_ne fs p q h

theorem insertFS_keys (fs : FS) (p : Path) (c : String)
    (hnd : (fs.map Prod.fst).Nodup) : ((insertFS fs p c).map Prod.fst).Nodup := by
  show ((p :: (eraseKey fs p).map Prod.fst)).Nodup
  rw [List.nodup_cons]
  constructor
  · intro hmem
    rcases List.mem_map.1 hmem with ⟨e, he, hep⟩
    have := List.of_mem_filter he
    simp at this
    exact this hep
  · exact List.Nodup.sublist (List.Sublist.map Prod.fst (List.filter_sublist fs)) hnd

theorem foldl_insertFS_lookup (l : List (Path × String)) (fs : FS) (p : Path)
    (hnd : (l.map Prod.fst).Nodup) :
    lookupFS (l.foldl (fun acc e => insertFS acc e.1 e.2) fs) p =
      match getAssoc l p with
      | some c => some c
      | none => lookupFS fs p := by
  induction l generalizing fs with
  | nil => rfl
  | cons e rest ih =>
    have hnd2 : (rest.map Prod.fst).Nodup := by
      rw [List.map_cons, List.nodup_cons] at hnd
      exact hnd.2
    have hpe : e.1 ∉ rest.map Prod.fst := by
      rw [List.map_cons, List.nodup_cons] at hnd
      exact hnd.1
    rw [List.foldl_cons, ih _ hnd2, getAssoc_cons]
    by_cases hep : e.1 = p
    · rw [if_pos hep]
      cases hga : getAssoc rest p with
      | some c =>
        exfalso
        have hm := getAssoc_mem rest p c hga
        apply hpe
        rw [hep]
        exact List.mem_map_of_mem Prod.fst hm
      | none =>
        subst hep
        simp only []
        exact lookupFS_insertFS_self fs e.1 e.2
    · rw [if_neg hep]
      cases hga : getAssoc rest p with
      | some c => rfl
      | none =>
        simp only []
        exact lookupFS_insertFS_ne fs e.1 p e.2 (fun hh => hep hh.symm)

theorem foldl_insertFS_keys (l : List (Path × String)) (fs : FS)
    (hnd : (fs.map Prod.fst).Nodup) :
    (((l.foldl (fun acc e => insertFS acc e.1 e.2) fs)).map Prod.fst).Nodup := by
  induction l generalizing fs with
  | nil => exact hnd
  | cons e rest ih =>
    rw [List.foldl_cons]
    exact ih _ (insertFS_keys fs e.1 e.2 hnd)

theorem eq_of_prefix_drop (src a b : Path) (ha : src.isPrefixOf a = true)
    (hb : src.isPrefixOf b = true) (h : a.drop src.length = b.drop src.length) :
    a = b := by
  rcases List.isPrefixOf_iff_prefix.1 ha with ⟨t, rfl⟩
  rcases List.isPrefixOf_iff_prefix.1 hb with ⟨u, rfl⟩
  rw [List.drop_left, List.drop_left] at h
  rw [h]

theorem mem_copied_keys (fs : FS) (src dst : Path) (k : Path) :
    k ∈ (fs.filterMap (fun e =>
      if src.isPrefixOf e.1 then some (dst ++ e.1.drop src.length, e.2)
      else none)).map Prod.fst ↔
    ∃ e ∈ fs, src.isPrefixOf e.1 = true ∧ k = dst ++ e.1.drop src.length := by
  rw [List.mem_map]
  constructor
  · rintro ⟨c, hc, rfl⟩
    rcases List.mem_filterMap.1 hc with ⟨e, he, hfe⟩
    by_cases hp : src.isPrefixOf e.1
    · rw [if_pos hp] at hfe
      have hce := Option.some.inj hfe
      exact ⟨e, he, hp, by rw [← hce]⟩
    · rw [if_neg hp] at hfe
      cases hfe
  · rintro ⟨e, he, hp, rfl⟩
    exact ⟨(dst ++ e.1.drop src.length, e.2),
      List.mem_filterMap.2 ⟨e, he, by rw [if_pos hp]⟩, rfl⟩

theorem copied_keys_nodup (fs : FS) (src dst : Path)
    (hnd : (fs.map Prod.fst).Nodup) :
    ((fs.filterMap (fun e =>
      if src.isPrefixOf e.1 then some (dst ++ e.1.drop src.length, e.2)
      else none)).map Prod.fst).Nodup := by
  induction fs with
  | nil => simp
  | cons e rest ih =>
    have hnd2 : (rest.map Prod.fst).Nodup := by
      rw [List.map_cons, List.nodup_cons] at hnd
      exact hnd.2
    have hpe : e.1 ∉ rest.map Prod.fst := by
      rw [List.map_cons, List.nodup_cons] at hnd
      exact hnd.1
    rw [List.filterMap_cons]
    by_cases hp : src.isPrefixOf e.1
    · rw [if_pos hp]
      simp only [List.map_cons]
      rw [List.nodup_cons]
      refine ⟨?_, ih hnd2⟩
      intro hmem
      rcases (mem_copied_keys rest src dst _).1 hmem with ⟨e2, he2, hp2, heq⟩
      have : e.1 = e2.1 := eq_of_prefix_drop src e.1 e2.1 hp hp2
        (List.append_cancel_left heq)
      apply hpe
      rw [this]
      exact List.mem_map_of_mem Prod.fst he2
    · rw [if_neg hp]
      exact ih hnd2

theorem getAssoc_copied (fs : FS) (src dst rel : Path) :
    getAssoc (fs.filterMap (fun e =>
      if src.isPrefixOf e.1 then some (dst ++ e.1.drop src.length, e.2)
      else none)) (dst ++ rel) = lookupFS fs (src ++ rel) := by
  induction fs with
  | nil => rfl
  | cons e rest ih =>
    rw [List.filterMap_cons]
    by_cases hp : src.isPrefixOf e.1
    · rw [if_pos hp]
      by_cases hk : e.1 = src ++ rel
      · have hdk : dst ++ e.1.drop src.length = dst ++ rel := by
          rw [hk, List.drop_left]
        rw [getAssoc_cons, if_pos hdk, lookupFS_eq_getAssoc, getAssoc_cons,
          if_pos hk]
      · have hdk : dst ++ e.1.drop src.length ≠ dst ++ rel := by
          intro hcontr
          apply hk
          rcases List.isPrefixOf_iff_prefix.1 hp with ⟨t, ht⟩
          rw [← ht, List.drop_left] at hcontr
          rw [← ht, List.append_cancel_left hcontr]
        rw [getAssoc_cons, if_neg hdk, lookupFS_eq_getAssoc, getAssoc_cons,
          if_neg hk]
        exact ih
    · rw [if_neg hp]
      have hk : e.1 ≠ src ++ rel := by
        intro hcontr
        rw [hcontr] at hp
        exact absurd (List.isPrefixOf_iff_prefix.2 (List.prefix_append src rel)) (by simp [hp])
      rw [lookupFS_eq_getAssoc, getAssoc_cons, if_neg hk]
      exact ih

theorem lookupFS_cpFS_out (fs : FS) (src dst p : Path)
    (hnd : (fs.map Prod.fst).Nodup) (h : dst.isPrefixOf p = false) :
    lookupFS (cpFS fs src dst) p = lookupFS fs p := by
  simp only [cpFS]
  rw [foldl_insertFS_lookup _ fs p (copied_keys_nodup fs src dst hnd)]
  cases hga : getAssoc (fs.filterMap (fun e =>
      if src.isPrefixOf e.1 then some (dst ++ e.1.drop src.length, e.2)
      else none)) p with
  | none => rfl
  | some c =>
    exfalso
    have hm := getAssoc_mem _ _ _ hga
    have hk : p ∈ (fs.filterMap (fun e =>
        if src.isPrefixOf e.1 then some (dst ++ e.1.drop src.length, e.2)
        else none)).map Prod.fst := List.mem_map_of_mem Prod.fst hm
    rcases (mem_copied_keys fs src dst p).1 hk with ⟨e, -, -, heq⟩
    rw [heq] at h
    have htrue : dst.isPrefixOf (dst ++ e.1.drop src.length) = true :=
      List.isPrefixOf_iff_prefix.2 (List.prefix_append dst _)
    simp [htrue] at h

theorem lookupFS_cpFS_in (fs : FS) (src dst rel : Path)
    (hnd : (fs.map Prod.fst).Nodup) :
    lookupFS (cpFS fs src dst) (dst ++ rel) =
      match lookupFS fs (src ++ rel) with
      | some c => some c
      | none => lookupFS fs (dst ++ rel) := by
  simp only [cpFS]
  rw [foldl_insertFS_lookup _ fs _ (copied_keys_nodup fs src dst hnd),
    getAssoc_copied]

theorem cpFS_keys (fs : FS) (src dst : Path) (hnd : (fs.map Prod.fst).Nodup) :
    ((cpFS fs src dst).map Prod.fst).Nodup := by
  simp only [cpFS]
  exact foldl_insertFS_keys _ fs hnd

theorem rmFS_keys (fs : FS) (p : Path) (hnd : (fs.map Prod.fst).Nodup) :
    ((rmFS fs p).map Prod.fst).Nodup :=
  List.Nodup.sublist (List.Sublist.map Prod.fst (List.filter_sublist fs)) hnd

theorem lookupFS_rmFS_under (fs : FS) (d p : Path) (h : d.isPrefixOf p = true) :
    lookupFS (rmFS fs d) p = none := by
  induction fs with
  | nil => rfl
  | cons e rest ih =>
    show getAssoc (List.filter _ (e :: rest)) p = none
    rw [List.filter_cons]
    by_cases he : d.isPrefixOf e.1
    · rw [if_neg (by simp [he])]
      exact ih
    · rw [if_pos (by simp [he])]
      rw [getAssoc_cons, if_neg ?_]
      · exact ih
      · intro hep
        rw [hep] at he
        exact he h

theorem lookupFS_rmFS_out (fs : FS) (d p : Path) (h : d.isPrefixOf p = false) :
    lookupFS (rmFS fs d) p = lookupFS fs p := by
  induction fs with
  | nil => rfl
  | cons e rest ih =>
    show getAssoc (List.filter _ (e :: rest)) p =
      getAssoc (e :: rest) p
    rw [List.filter_cons]
    by_cases he : d.isPrefixOf e.1
    · rw [if_neg (by simp [he])]
      rw [getAssoc_cons, if_neg ?_]
      · exact ih
      · intro hep
        rw [hep] at he
        rw [he] at h
        cases h
    · rw [if_pos (by simp [he])]
      rw [getAssoc_cons, getAssoc_cons]
      by_cases hep : e.1 = p
      · rw [if_pos hep, if_pos hep]
      · rw [if_neg hep, if_neg hep]
        exact ih

theorem not_prefix_append (a b : Path) (h1 : a.isPrefixOf b = false)
    (h2 : b.isPrefixOf a = false) (rel : Path) :
    a.isPrefixOf (b ++ rel) = false := by
  by_contra hcontr
  have ha : a <+: b ++ rel := List.isPrefixOf_iff_prefix.1 (by
    cases hx : a.isPrefixOf (b ++ rel)
    · exact absurd hx hcontr
    · rfl)
  have hb : b <+: b ++ rel := List.prefix_append b rel
  by_cases hlen : a.length ≤ b.length
  · have := List.prefix_of_prefix_length_le ha hb hlen
    rw [List.isPrefixOf_iff_prefix.2 this] at h1
    cases h1
  · have := List.prefix_of_prefix_length_le hb ha (by omega)
    rw [List.isPrefixOf_iff_prefix.2 this] at h2
    cases h2

theorem syncFold_spec (agents : Agents) (skillName sourceAgent : String)
    (srcAg : Agent) (hsrc : getAssoc agents sourceAgent = some srcAg)
    (ts : List String) (acc : FS)
    (hacc : (acc.map Prod.fst).Nodup)
    (hts : ∀ t ∈ ts, ∃ ag, getAssoc agents t = some ag ∧
      disjointDirs (skillDir srcAg skillName) (skillDir ag skillName))
    (htd : ∀ t ∈ ts, ∀ u ∈ ts, t ≠ u → ∀ ag au,
      getAssoc agents t = some ag → getAssoc agents u = some au →
      disjointDirs (skillDir ag skillName) (skillDir au skillName))
    (hnodup : ts.Nodup) :
    ∃ fs2,
      ts.foldlM (fun a t => copySkill a agents skillName sourceAgent t) acc =
        Except.ok fs2 ∧
      (fs2.map Prod.fst).Nodup ∧
      (∀ p, (∀ t ∈ ts, ∀ ag, getAssoc agents t = some ag →
          (skillDir ag skillName).isPrefixOf p = false) →
        lookupFS fs2 p = lookupFS acc p) ∧
      (∀ t ∈ ts, ∀ ag, getAssoc agents t = some ag →
        ∀ rel, lookupFS fs2 (skillDir ag skillName ++ rel) =
          match lookupFS acc (skillDir srcAg skillName ++ rel) with
          | some c => some c
          | none => lookupFS acc (skillDir ag skillName ++ rel)) := by
  induction ts generalizing acc with
  | nil =>
    refine ⟨acc, rfl, hacc, fun p _ => rfl, ?_⟩
    intro t ht
    cases ht
  | cons t0 rest ih =>
    obtain ⟨ag0, hag0, hdj0⟩ := hts t0 (List.mem_cons_self t0 rest)
    have ht0nr : t0 ∉ rest := (List.nodup_cons.1 hnodup).1
    have hstep : copySkill acc agents skillName sourceAgent t0 =
        Except.ok (cpFS acc (skillDir srcAg skillName) (skillDir ag0 skillName)) := by
      simp [copySkill, hsrc, hag0, skillDir]
    have hacc2 : ((cpFS acc (skillDir srcAg skillName)
        (skillDir ag0 skillName)).map Prod.fst).Nodup :=
      cpFS_keys _ _ _ hacc
    obtain ⟨fs2, hok, hnd2, huntouched, hcontent⟩ :=
      ih (cpFS acc (skillDir srcAg skillName) (skillDir ag0 skillName)) hacc2
        (fun t ht => hts t (List.mem_cons_of_mem t0 ht))
        (fun t ht u hu hne ag au hg1 hg2 =>
          htd t (List.mem_cons_of_mem t0 ht) u (List.mem_cons_of_mem t0 hu)
            hne ag au hg1 hg2)
        (List.nodup_cons.1 hnodup).2
    refine ⟨fs2, ?_, hnd2, ?_, ?_⟩
    · rw [List.foldlM_cons, hstep]
      exact hok
    · intro p hp
      rw [huntouched p (fun t ht ag hg =>
        hp t (List.mem_cons_of_mem t0 ht) ag hg)]
      exact lookupFS_cpFS_out acc _ _ p hacc
        (hp t0 (List.mem_cons_self t0 rest) ag0 hag0)
    · intro t ht ag hg rel
      rcases List.mem_cons.1 ht with rfl | htr
      · have hagg : ag = ag0 := by
          rw [hg] at hag0
          exact Option.some.inj hag0
        subst hagg
        have hskip : lookupFS fs2 (skillDir ag skillName ++ rel) =
            lookupFS (cpFS acc (skillDir srcAg skillName) (skillDir ag skillName))
              (skillDir ag skillName ++ rel) := by
          apply huntouched
          intro u hu au hgu
          have hdj := htd u (List.mem_cons_of_mem t hu) t
            (List.mem_cons_self t rest)
            (fun hh => ht0nr (hh ▸ hu)) au ag hgu hg
          exact not_prefix_append _ _ hdj.1 hdj.2 rel
        rw [hskip]
        exact lookupFS_cpFS_in acc _ _ rel hacc
      · have hsrcpre : lookupFS (cpFS acc (skillDir srcAg skillName)
            (skillDir ag0 skillName)) (skillDir srcAg skillName ++ rel) =
            lookupFS acc (skillDir srcAg skillName ++ rel) :=
          lookupFS_cpFS_out acc _ _ _ hacc
            (not_prefix_append _ _ hdj0.2 hdj0.1 rel)
        have hdpre : lookupFS (cpFS acc (skillDir srcAg skillName)
            (skillDir ag0 skillName)) (skillDir ag skillName ++ rel) =
            lookupFS acc (skillDir ag skillName ++ rel) := by
          have hdj := htd t0 (List.mem_cons_self t0 rest) t
            (List.mem_cons_of_mem t0 htr)
            (fun hh => ht0nr (hh ▸ htr)) ag0 ag hag0 hg
          exact lookupFS_cpFS_out acc _ _ _ hacc
            (not_prefix_append _ _ hdj.1 hdj.2 rel)
        rw [hcontent t htr ag hg rel, hsrcpre, hdpre]

/-- C2 counterexample: with two detected agents both already holding
an identical copy of `foo` (its matrix row is `synced`, agent `b`
present), `syncUnique("foo", "a")` still targets and returns `b` —
not the empty list the claim requires. -/
theorem syncUnique_targets_cex :
    buildMatrix id exFS exAgents =
      [⟨"foo",
        [("a", ⟨true, some "SKILL.md:c"⟩), ("b", ⟨true, some "SKILL.md:c"⟩)],
        .synced⟩] ∧
    (syncUnique exFS exAgents "foo" "a").toOption.map Prod.fst = some ["b"] := by
  constructor <;> rfl

/-- C2 (amended): `syncUnique(skillName, sourceAgent)` targets every
detected agent other than the source — regardless of whether the
skill is already present there — copies the skill into each target's
directory (an overwrite copy), and returns that target list. -/
theorem syncUnique_spec (fs : FS) (agents : Agents) (skillName sourceAgent : String)
    (srcAg : Agent)
    (hfs : (fs.map Prod.fst).Nodup)
    (hagnd : (agents.map Prod.fst).Nodup)
    (hsrc : getAssoc agents sourceAgent = some srcAg)
    (hdisj : ∀ e1 ∈ agents, ∀ e2 ∈ agents, e1.1 ≠ e2.1 →
      (skillDir e1.2 skillName).isPrefixOf (skillDir e2.2 skillName) = false) :
    (∀ aId, aId ∈ (agents.filter (fun e =>
        e.2.detected && decide (e.1 ≠ sourceAgent))).map Prod.fst ↔
      ∃ ag, (aId, ag) ∈ agents ∧ ag.detected = true ∧ aId ≠ sourceAgent) ∧
    ∃ fs2,
      syncUnique fs agents skillName sourceAgent =
        Except.ok ((agents.filter (fun e =>
          e.2.detected && decide (e.1 ≠ sourceAgent))).map Prod.fst, fs2) ∧
      ∀ aId ag, getAssoc agents aId = some ag → ag.detected = true →
        aId ≠ sourceAgent →
        ∀ rel, lookupFS fs2 (skillDir ag skillName ++ rel) =
          match lookupFS fs (skillDir srcAg skillName ++ rel) with
          | some c => some c
          | none => lookupFS fs (skillDir ag skillName ++ rel) := by
  have hsrcmem : (sourceAgent, srcAg) ∈ agents := getAssoc_mem agents _ _ hsrc
  constructor
  · intro aId
    constructor
    · intro hmem
      rcases List.mem_map.1 hmem with ⟨e, he, rfl⟩
      have hcond := (List.mem_filter.1 he).2
      simp only [Bool.and_eq_true, decide_eq_true_eq] at hcond
      exact ⟨e.2, by simpa using (List.mem_filter.1 he).1, hcond.1, hcond.2⟩
    · rintro ⟨ag, hmem, hdet, hne⟩
      apply List.mem_map.2
      refine ⟨(aId, ag), List.mem_filter.2 ⟨hmem, ?_⟩, rfl⟩
      simp [hdet, hne]
  · have hts : ∀ t ∈ (agents.filter (fun e =>
        e.2.detected && decide (e.1 ≠ sourceAgent))).map Prod.fst,
        ∃ ag, getAssoc agents t = some ag ∧
          disjointDirs (skillDir srcAg skillName) (skillDir ag skillName) := by
      intro t hmem
      rcases List.mem_map.1 hmem with ⟨e, he, rfl⟩
      have hein : e ∈ agents := List.mem_of_mem_filter he
      have hcond := (List.mem_filter.1 he).2
      simp only [Bool.and_eq_true, decide_eq_true_eq] at hcond
      refine ⟨e.2, mem_getAssoc agents hagnd e.1 e.2 (by simpa using hein), ?_, ?_⟩
      · exact hdisj (sourceAgent, srcAg) hsrcmem e hein
          (fun hh => hcond.2 hh.symm)
      · exact hdisj e hein (sourceAgent, srcAg) hsrcmem hcond.2
    have htd : ∀ t ∈ (agents.filter (fun e =>
        e.2.detected && decide (e.1 ≠ sourceAgent))).map Prod.fst,
        ∀ u ∈ (agents.filter (fun e =>
          e.2.detected && decide (e.1 ≠ sourceAgent))).map Prod.fst,
        t ≠ u → ∀ ag au, getAssoc agents t = some ag →
        getAssoc agents u = some au →
        disjointDirs (skillDir ag skillName) (skillDir au skillName) := by
      intro t _ u _ hne ag au hg1 hg2
      have hm1 : (t, ag) ∈ agents := getAssoc_mem agents _ _ hg1
      have hm2 : (u, au) ∈ agents := getAssoc_mem agents _ _ hg2
      exact ⟨hdisj (t, ag) hm1 (u, au) hm2 hne,
        hdisj (u, au) hm2 (t, ag) hm1 (fun hh => hne hh.symm)⟩
    have hnodup : ((agents.filter (fun e =>
        e.2.detected && decide (e.1 ≠ sourceAgent))).map Prod.fst).Nodup :=
      List.Nodup.sublist (List.Sublist.map Prod.fst (List.filter_sublist agents))
        hagnd
    obtain ⟨fs2, hok, -, -, hcontent⟩ :=
      syncFold_spec agents skillName sourceAgent srcAg hsrc _ fs hfs hts htd hnodup
    refine ⟨fs2, ?_, ?_⟩
    · simp only [syncUnique]
      rw [hok]
      rfl
    · intro aId ag hget hdet hne rel
      have hmem : aId ∈ (agents.filter (fun e =>
          e.2.detected && decide (e.1 ≠ sourceAgent))).map Prod.fst := by
        apply List.mem_map.2
        refine ⟨(aId, ag), List.mem_filter.2 ⟨getAssoc_mem agents _ _ hget, ?_⟩, rfl⟩
        simp [hdet, hne]
      exact hcontent aId hmem ag hget rel

/-- Closed instance of `syncUnique_spec` on the two-agent example
configuration with source agent `a`. -/
theorem syncUnique_spec_witness :
    (∀ aId, aId ∈ (exAgents.filter (fun e =>
        e.2.detected && decide (e.1 ≠ "a"))).map Prod.fst ↔
      ∃ ag, (aId, ag) ∈ exAgents ∧ ag.detected = true ∧ aId ≠ "a") ∧
    ∃ fs2,
      syncUnique exFS exAgents "foo" "a" =
        Except.ok ((exAgents.filter (fun e =>
          e.2.detected && decide (e.1 ≠ "a"))).map Prod.fst, fs2) ∧
      ∀ aId ag, getAssoc exAgents aId = some ag → ag.detected = true →
        aId ≠ "a" →
        ∀ rel, lookupFS fs2 (skillDir ag "foo" ++ rel) =
          match lookupFS exFS (skillDir (⟨["agents", "a"], true⟩ : Agent) "foo" ++ rel) with
          | some c => some c
          | none => lookupFS exFS (skillDir ag "foo" ++ rel) :=
  syncUnique_spec exFS exAgents "foo" "a" ⟨["agents", "a"], true⟩
    (by decide) (by decide) (by decide) (by decide)

/-! ## Helper lemmas: locale collation order -/

theorem localeCmp_swap (a b : String) : localeCmp b a = (localeCmp a b).swap := by
  unfold localeCmp
  rw [natListCmp_swap (primKey a), natListCmp_swap (tertKey a)]
  cases natListCmp (primKey a) (primKey b) <;>
    cases natListCmp (tertKey a) (tertKey b) <;> rfl

theorem localeLe_eq_true_iff (a b : String) :
    localeLe a b = true ↔ localeCmp a b ≠ .gt := by
  unfold localeLe
  cases localeCmp a b <;> simp

theorem localeCmp_ne_gt_iff (a b : String) :
    localeCmp a b ≠ .gt ↔
      (natListCmp (primKey a) (primKey b) = .lt ∨
        (primKey a = primKey b ∧ natListCmp (tertKey a) (tertKey b) ≠ .gt)) := by
  unfold localeCmp
  cases h : natListCmp (primKey a) (primKey b) with
  | lt => simp
  | gt =>
    simp only [ne_eq, not_true_eq_false, false_iff, not_or]
    constructor
    · intro hlt
      cases hlt
    · rintro ⟨hp, -⟩
      rw [(natListCmp_eq_iff _ _).2 hp] at h
      cases h
  | eq =>
    have hp := (natListCmp_eq_iff _ _).1 h
    constructor
    · intro ht
      exact Or.inr ⟨hp, ht⟩
    · rintro (hlt | ⟨-, ht⟩)
      · simp at hlt
      · exact ht

theorem localeLe_total (a b : String) :
    localeLe a b = true ∨ localeLe b a = true := by
  cases h : localeCmp a b with
  | lt => exact Or.inl ((localeLe_eq_true_iff a b).2 (by simp [h]))
  | eq => exact Or.inl ((localeLe_eq_true_iff a b).2 (by simp [h]))
  | gt =>
    right
    apply (localeLe_eq_true_iff b a).2
    rw [localeCmp_swap, h]
    simp [Ordering.swap]

theorem localeLe_trans (a b c : String) (h1 : localeLe a b = true)
    (h2 : localeLe b c = true) : localeLe a c = true := by
  rw [localeLe_eq_true_iff, localeCmp_ne_gt_iff] at h1 h2 ⊢
  rcases h1 with h1 | ⟨h1p, h1t⟩
  · rcases h2 with h2 | ⟨h2p, -⟩
    · exact Or.inl (natListCmp_lt_trans _ _ _ h1 h2)
    · exact Or.inl (h2p ▸ h1)
  · rcases h2 with h2 | ⟨h2p, h2t⟩
    · exact Or.inl (h1p ▸ h2)
    · exact Or.inr ⟨h1p.trans h2p,
        natListCmp_le_trans (tertKey a) (tertKey b) (tertKey c) h1t h2t⟩

/-- C3 counterexample: on a tree with files `B` and `a`, the code's
`localeCompare` sort puts `a` first (ICU collation), while the spec's
byte order puts `B` (0x42) before `a` (0x61); with the digest
instantiated as the identity function the produced `treeHash` differs
from the byte-order canonicalization the claim prescribes. -/
theorem hashTree_byteorder_cex :
    (hashTree id [(["s", "B"], "x"), (["s", "a"], "y")] ["s"]).treeHash =
      "a:y\nB:x" ∧
    specTreeHash id [(["s", "B"], "x"), (["s", "a"], "y")] ["s"] = "B:x\na:y" ∧
    (hashTree id [(["s", "B"], "x"), (["s", "a"], "y")] ["s"]).treeHash ≠
      specTreeHash id [(["s", "B"], "x"), (["s", "a"], "y")] ["s"] := by
  refine ⟨rfl, rfl, ?_⟩
  decide

/-- C3 (amended): `hashTree` collects the `(relativePath, digest)`
pairs, sorts them by `localeCompare` on the relative path (locale
collation, not raw byte order), and returns the digest of the sorted
entries rendered `"path:digest"` and joined by newline, together with
that sorted file list. -/
theorem hashTree_spec (H : String → String) (fs : FS) (dir : Path) :
    List.Pairwise fileLe (hashTree H fs dir).files ∧
    List.Perm (hashTree H fs dir).files (collectFiles H fs dir) ∧
    (hashTree H fs dir).treeHash =
      H (String.intercalate "\n"
        ((hashTree H fs dir).files.map (fun f => f.path ++ ":" ++ f.hash))) := by
  refine ⟨?_, ?_, rfl⟩
  · exact @List.sorted_insertionSort SkillFile fileLe _
      ⟨fun f g => localeLe_total f.path g.path⟩
      ⟨fun f g h hfg hgh => localeLe_trans f.path g.path h.path hfg hgh⟩
      (collectFiles H fs dir)
  · exact List.perm_insertionSort fileLe (collectFiles H fs dir)

/-! ## Helper lemmas: doctor -/

theorem checkAssignment_spec (fs : LFS) (p t : Path) :
    (checkAssignment fs p t = .healthy ↔
      lookupL fs p = some (.symlink t) ∧ accessB fs t = true) ∧
    (checkAssignment fs p t = .rogue ↔
      (lookupL fs p = some .file ∨ lookupL fs p = some .dir)) ∧
    (checkAssignment fs p t = .brokenMissing ↔ lookupL fs p = none) ∧
    (checkAssignment fs p t = .brokenTargetMissing ↔
      ∃ u, lookupL fs p = some (.symlink u) ∧ accessB fs u = false) ∧
    (∀ u, checkAssignment fs p t = .brokenWrongTarget u ↔
      (lookupL fs p = some (.symlink u) ∧ u ≠ t ∧ accessB fs u = true)) := by
  cases hL : lookupL fs p with
  | none =>
    have hsym : isSymlink fs p = false := by simp [isSymlink, hL]
    have hacc : accessB fs p = false := by simp [accessB, accessOk, hL]
    have hchk : checkAssignment fs p t = .brokenMissing := by
      simp [checkAssignment, hsym, hacc]
    refine ⟨?_, ?_, ?_, ?_, ?_⟩ <;> simp [hchk, hL]
  | some node =>
    cases node with
    | file =>
      have hsym : isSymlink fs p = false := by simp [isSymlink, hL]
      have hacc : accessB fs p = true := by simp [accessB, accessOk, hL]
      have hchk : checkAssignment fs p t = .rogue := by
        simp [checkAssignment, hsym, hacc]
      refine ⟨?_, ?_, ?_, ?_, ?_⟩ <;> simp [hchk, hL]
    | dir =>
      have hsym : isSymlink fs p = false := by simp [isSymlink, hL]
      have hacc : accessB fs p = true := by simp [accessB, accessOk, hL]
      have hchk : checkAssignment fs p t = .rogue := by
        simp [checkAssignment, hsym, hacc]
      refine ⟨?_, ?_, ?_, ?_, ?_⟩ <;> simp [hchk, hL]
    | symlink u =>
      have hsym : isSymlink fs p = true := by simp [isSymlink, hL]
      have hg : getSymlinkTarget fs p = some u := by simp [getSymlinkTarget, hL]
      cases hA : accessB fs u with
      | false =>
        have hchk : checkAssignment fs p t = .brokenTargetMissing := by
          simp [checkAssignment, hsym, hg, hA]
        refine ⟨?_, ?_, ?_, ?_, ?_⟩
        · refine iff_of_false (by simp [hchk]) ?_
          rintro ⟨hl2, hacc2⟩
          have hut : u = t := by simpa using hl2
          rw [hut] at hA
          rw [hacc2] at hA
          simp at hA
        · exact iff_of_false (by simp [hchk]) (by simp)
        · exact iff_of_false (by simp [hchk]) (by simp)
        · exact iff_of_true hchk ⟨u, rfl, hA⟩
        · intro v
          refine iff_of_false (by simp [hchk]) ?_
          rintro ⟨hl2, -, hacc2⟩
          have huv : u = v := by simpa using hl2
          rw [huv] at hA
          rw [hacc2] at hA
          simp at hA
      | true =>
        by_cases hut : u = t
        · have hAt : accessB fs t = true := by
            rw [← hut]
            exact hA
          have hchk : checkAssignment fs p t = .healthy := by
            simp [checkAssignment, hsym, hg, hA, hAt, hut]
          refine ⟨?_, ?_, ?_, ?_, ?_⟩
          · refine iff_of_true hchk ⟨?_, ?_⟩
            · rw [hut]
            · rw [← hut]
              exact hA
          · exact iff_of_false (by simp [hchk]) (by simp)
          · exact iff_of_false (by simp [hchk]) (by simp)
          · refine iff_of_false (by simp [hchk]) ?_
            rintro ⟨v, hl2, hacc2⟩
            have huv : u = v := by simpa using hl2
            rw [huv] at hA
            rw [hacc2] at hA
            simp at hA
          · intro v
            refine iff_of_false (by simp [hchk]) ?_
            rintro ⟨hl2, hne, -⟩
            have huv : u = v := by simpa using hl2
            rw [← huv] at hne
            exact hne hut
        · have hchk : checkAssignment fs p t = .brokenWrongTarget u := by
            simp [checkAssignment, hsym, hg, hA, hut]
          refine ⟨?_, ?_, ?_, ?_, ?_⟩
          · refine iff_of_false (by simp [hchk]) ?_
            rintro ⟨hl2, -⟩
            exact hut (by simpa using hl2)
          · exact iff_of_false (by simp [hchk]) (by simp)
          · exact iff_of_false (by simp [hchk]) (by simp)
          · refine iff_of_false (by simp [hchk]) ?_
            rintro ⟨v, hl2, hacc2⟩
            have huv : u = v := by simpa using hl2
            rw [huv] at hA
            rw [hacc2] at hA
            simp at hA
          · intro v
            constructor
            · intro h
              rw [hchk] at h
              have huv : u = v := by injection h
              rw [← huv]
              exact ⟨rfl, hut, hA⟩
            · rintro ⟨hl2, -, -⟩
              have huv : u = v := by simpa using hl2
              rw [hchk, huv]

theorem doctorInner_spec (fs : LFS) (skillsDir : Path) (agents : Agents)
    (s : String) (as : List String) (st0 : DoctorResults × Bool) :
    ((as.foldl (fun st agentId =>
      match getAssoc agents agentId with
      | none => st
      | some agent =>
        if agent.detected then
          let expectedPath := agent.globalPath ++ [s]
          let expectedTarget := skillsDir ++ [s]
          match checkAssignment fs expectedPath expectedTarget with
          | .healthy => st
          | .rogue =>
              ({ st.1 with rogue := st.1.rogue ++ [⟨s, agentId, expectedPath⟩] },
                false)
          | .brokenMissing =>
              ({ st.1 with broken := st.1.broken ++
                  [⟨s, agentId, expectedPath, "symlink missing"⟩] }, false)
          | .brokenTargetMissing =>
              ({ st.1 with broken := st.1.broken ++
                  [⟨s, agentId, expectedPath, "target missing"⟩] }, false)
          | .brokenWrongTarget t =>
              ({ st.1 with broken := st.1.broken ++
                  [⟨s, agentId, expectedPath,
                    "wrong target: " ++ String.intercalate "/" t⟩] }, false)
        else st) st0).1.healthy = st0.1.healthy) ∧
    ((as.foldl (fun st agentId =>
      match getAssoc agents agentId with
      | none => st
      | some agent =>
        if agent.detected then
          let expectedPath := agent.globalPath ++ [s]
          let expectedTarget := skillsDir ++ [s]
          match checkAssignment fs expectedPath expectedTarget with
          | .healthy => st
          | .rogue =>
              ({ st.1 with rogue := st.1.rogue ++ [⟨s, agentId, expectedPath⟩] },
                false)
          | .brokenMissing =>
              ({ st.1 with broken := st.1.broken ++
                  [⟨s, agentId, expectedPath, "symlink missing"⟩] }, false)
          | .brokenTargetMissing =>
              ({ st.1 with broken := st.1.broken ++
                  [⟨s, agentId, expectedPath, "target missing"⟩] }, false)
          | .brokenWrongTarget t =>
              ({ st.1 with broken := st.1.broken ++
                  [⟨s, agentId, expectedPath,
                    "wrong target: " ++ String.intercalate "/" t⟩] }, false)
        else st) st0).2 = true ↔
      st0.2 = true ∧ ∀ aid ∈ as, ∀ ag, getAssoc agents aid = some ag →
        ag.detected = true →
        checkAssignment fs (ag.globalPath ++ [s]) (skillsDir ++ [s]) = .healthy) := by
  induction as generalizing st0 with
  | nil =>
    refine ⟨rfl, ?_⟩
    simp
  | cons aid rest ih =>
    simp only [List.foldl_cons]
    have bridge : ∀ st1 : DoctorResults × Bool,
        (st1.2 = true ∧ (∀ a ∈ rest, ∀ ag, getAssoc agents a = some ag →
          ag.detected = true →
          checkAssignment fs (ag.globalPath ++ [s]) (skillsDir ++ [s]) = .healthy)) →
        (∀ ag, getAssoc agents aid = some ag → ag.detected = true →
          checkAssignment fs (ag.globalPath ++ [s]) (skillsDir ++ [s]) = .healthy) →
        st1.2 = true ∧ (∀ a ∈ aid :: rest, ∀ ag, getAssoc agents a = some ag →
          ag.detected = true →
          checkAssignment fs (ag.globalPath ++ [s]) (skillsDir ++ [s]) = .healthy) := by
      rintro st1 ⟨h0, hrest⟩ haid
      refine ⟨h0, ?_⟩
      intro a ha ag2 hg hd
      rcases List.mem_cons.1 ha with rfl | ha2
      · exact haid ag2 hg hd
      · exact hrest a ha2 ag2 hg hd
    have unbridge : ∀ st1 : DoctorResults × Bool,
        (st1.2 = true ∧ (∀ a ∈ aid :: rest, ∀ ag, getAssoc agents a = some ag →
          ag.detected = true →
          checkAssignment fs (ag.globalPath ++ [s]) (skillsDir ++ [s]) = .healthy)) →
        st1.2 = true ∧ (∀ a ∈ rest, ∀ ag, getAssoc agents a = some ag →
          ag.detected = true →
          checkAssignment fs (ag.globalPath ++ [s]) (skillsDir ++ [s]) = .healthy) := by
      rintro st1 ⟨h0, hall⟩
      exact ⟨h0, fun a ha ag2 hg hd =>
        hall a (List.mem_cons_of_mem aid ha) ag2 hg hd⟩
    cases hga : getAssoc agents aid with
    | none =>
      refine ⟨(ih st0).1, ((ih st0).2).trans ?_⟩
      constructor
      · intro h
        refine bridge st0 h ?_
        intro ag2 hg hd
        rw [hga] at hg
        cases hg
      · exact unbridge st0
    | some ag =>
      cases hdet : ag.detected with
      | false =>
        simp only [hdet, if_false]
        refine ⟨(ih st0).1, ((ih st0).2).trans ?_⟩
        constructor
        · intro h
          refine bridge st0 h ?_
          intro ag2 hg hd
          rw [hga] at hg
          have hag : ag = ag2 := Option.some.inj hg
          rw [← hag] at hd
          rw [hdet] at hd
          cases hd
        · exact unbridge st0
      | true =>
        simp only [hdet, if_true]
        cases hchk : checkAssignment fs (ag.globalPath ++ [s]) (skillsDir ++ [s]) with
        | healthy =>
          simp only [hchk]
          refine ⟨(ih st0).1, ((ih st0).2).trans ?_⟩
          constructor
          · intro h
            refine bridge st0 h ?_
            intro ag2 hg hd
            rw [hga] at hg
            have hag : ag = ag2 := Option.some.inj hg
            rw [← hag]
            exact hchk
          · exact unbridge st0
        | rogue =>
          simp only [hchk]
          refine ⟨(ih _).1, iff_of_false ?_ ?_⟩
          · intro h
            obtain ⟨hf, -⟩ := ((ih _).2).1 h
            simp at hf
          · rintro ⟨-, hall⟩
            have hh := hall aid (List.mem_cons_self aid rest) ag hga hdet
            rw [hh] at hchk
            cases hchk
        | brokenMissing =>
          simp only [hchk]
          refine ⟨(ih _).1, iff_of_false ?_ ?_⟩
          · intro h
            obtain ⟨hf, -⟩ := ((ih _).2).1 h
            simp at hf
          · rintro ⟨-, hall⟩
            have hh := hall aid (List.mem_cons_self aid rest) ag hga hdet
            rw [hh] at hchk
            cases hchk
        | brokenTargetMissing =>
          simp only [hchk]
          refine ⟨(ih _).1, iff_of_false ?_ ?_⟩
          · intro h
            obtain ⟨hf, -⟩ := ((ih _).2).1 h
            simp at hf
          · rintro ⟨-, hall⟩
            have hh := hall aid (List.mem_cons_self aid rest) ag hga hdet
            rw [hh] at hchk
            cases hchk
        | brokenWrongTarget t =>
          simp only [hchk]
          refine ⟨(ih _).1, iff_of_false ?_ ?_⟩
          · intro h
            obtain ⟨hf, -⟩ := ((ih _).2).1 h
            simp at hf
          · rintro ⟨-, hall⟩
            have hh := hall aid (List.mem_cons_self aid rest) ag hga hdet
            rw [hh] at hchk
            cases hchk

theorem allOkB_iff (fs : LFS) (skillsDir : Path) (agents : Agents)
    (s : String) (as : List String) :
    (as.all (fun aid =>
      match getAssoc agents aid with
      | none => true
      | some ag => !ag.detected ||
          decide (checkAssignment fs (ag.globalPath ++ [s])
            (skillsDir ++ [s]) = .healthy)) = true) ↔
    (∀ aid ∈ as, ∀ ag, getAssoc agents aid = some ag → ag.detected = true →
      checkAssignment fs (ag.globalPath ++ [s]) (skillsDir ++ [s]) = .healthy) := by
  rw [List.all_eq_true]
  constructor
  · intro h aid ha ag hg hd
    have h2 := h aid ha
    rw [hg] at h2
    simp only [hd, Bool.not_true, Bool.false_or, decide_eq_true_eq] at h2
    exact h2
  · intro h aid ha
    cases hg : getAssoc agents aid with
    | none => rfl
    | some ag =>
      simp only []
      cases hd : ag.detected with
      | false => rfl
      | true =>
        simp only [Bool.not_true, Bool.false_or, decide_eq_true_eq]
        exact h aid ha ag hg hd

theorem doctorOuter_spec (fs : LFS) (skillsDir : Path) (agents : Agents)
    (registry : DoctorRegistry) (res0 : DoctorResults) :
    (registry.foldl (fun results skill =>
      let checked := skill.2.foldl (fun st agentId =>
        match getAssoc agents agentId with
        | none => st
        | some agent =>
          if agent.detected then
            let expectedPath := agent.globalPath ++ [skill.1]
            let expectedTarget := skillsDir ++ [skill.1]
            match checkAssignment fs expectedPath expectedTarget with
            | .healthy => st
            | .rogue =>
                ({ st.1 with rogue := st.1.rogue ++
                    [⟨skill.1, agentId, expectedPath⟩] }, false)
            | .brokenMissing =>
                ({ st.1 with broken := st.1.broken ++
                    [⟨skill.1, agentId, expectedPath, "symlink missing"⟩] }, false)
            | .brokenTargetMissing =>
                ({ st.1 with broken := st.1.broken ++
                    [⟨skill.1, agentId, expectedPath, "target missing"⟩] }, false)
            | .brokenWrongTarget t =>
                ({ st.1 with broken := st.1.broken ++
                    [⟨skill.1, agentId, expectedPath,
                      "wrong target: " ++ String.intercalate "/" t⟩] }, false)
          else st) (results, true)
      if checked.2 then { checked.1 with healthy := checked.1.healthy ++ [skill.1] }
      else checked.1) res0).healthy =
    res0.healthy ++ (registry.filter (fun row => row.2.all (fun aid =>
      match getAssoc agents aid with
      | none => true
      | some ag => !ag.detected ||
          decide (checkAssignment fs (ag.globalPath ++ [row.1])
            (skillsDir ++ [row.1]) = .healthy)))).map Prod.fst := by
  induction registry generalizing res0 with
  | nil => simp
  | cons row rest ih =>
    rw [List.foldl_cons, List.filter_cons]
    have hinner := doctorInner_spec fs skillsDir agents row.1 row.2 (res0, true)
    by_cases hok : (row.2.foldl (fun st agentId =>
        match getAssoc agents agentId with
        | none => st
        | some agent =>
          if agent.detected then
            let expectedPath := agent.globalPath ++ [row.1]
            let expectedTarget := skillsDir ++ [row.1]
            match checkAssignment fs expectedPath expectedTarget with
            | .healthy => st
            | .rogue =>
                ({ st.1 with rogue := st.1.rogue ++
                    [⟨row.1, agentId, expectedPath⟩] }, false)
            | .brokenMissing =>
                ({ st.1 with broken := st.1.broken ++
                    [⟨row.1, agentId, expectedPath, "symlink missing"⟩] }, false)
            | .brokenTargetMissing =>
                ({ st.1 with broken := st.1.broken ++
                    [⟨row.1, agentId, expectedPath, "target missing"⟩] }, false)
            | .brokenWrongTarget t =>
                ({ st.1 with broken := st.1.broken ++
                    [⟨row.1, agentId, expectedPath,
                      "wrong target: " ++ String.intercalate "/" t⟩] }, false)
          else st) (res0, true)).2 = true
    · have hcond : (row.2.all (fun aid =>
          match getAssoc agents aid with
          | none => true
          | some ag => !ag.detected ||
              decide (checkAssignment fs (ag.globalPath ++ [row.1])
                (skillsDir ++ [row.1]) = .healthy)) = true) := by
        rw [allOkB_iff]
        exact (hinner.2.1 hok).2
      rw [if_pos hcond]
      simp only [hok, if_true]
      rw [ih]
      simp only [hinner.1]
      rw [List.map_cons, List.append_assoc]
      rfl
    · have hcond : ¬ (row.2.all (fun aid =>
          match getAssoc agents aid with
          | none => true
          | some ag => !ag.detected ||
              decide (checkAssignment fs (ag.globalPath ++ [row.1])
                (skillsDir ++ [row.1]) = .healthy)) = true) := by
        rw [allOkB_iff]
        intro hall
        exact hok (hinner.2.2 ⟨rfl, hall⟩)
      rw [if_neg hcond]
      rw [if_neg hok]
      rw [ih]
      rw [hinner.1]

/-- C5: the doctor's per-pair classification is total and faithful —
for each considered `(skill, agent)` pair the live state is mapped to
exactly one of healthy, broken (symlink missing), broken (target
missing), broken (wrong target) or rogue, with a real non-symlink
file or directory classified rogue and never broken; and `runDoctor`
reports a skill healthy exactly when every one of its assignment
checks against a detected agent is healthy. -/
theorem runDoctor_spec (fs : LFS) (skillsDir : Path) (agents : Agents)
    (registry : DoctorRegistry) (hnd : (registry.map Prod.fst).Nodup) :
    (∀ p t,
      (checkAssignment fs p t = .healthy ↔
        lookupL fs p = some (.symlink t) ∧ accessB fs t = true) ∧
      (checkAssignment fs p t = .rogue ↔
        (lookupL fs p = some .file ∨ lookupL fs p = some .dir)) ∧
      (checkAssignment fs p t = .brokenMissing ↔ lookupL fs p = none) ∧
      (checkAssignment fs p t = .brokenTargetMissing ↔
        ∃ u, lookupL fs p = some (.symlink u) ∧ accessB fs u = false) ∧
      (∀ u, checkAssignment fs p t = .brokenWrongTarget u ↔
        (lookupL fs p = some (.symlink u) ∧ u ≠ t ∧ accessB fs u = true))) ∧
    (∀ s as, (s, as) ∈ registry →
      (s ∈ (runDoctor fs skillsDir agents registry).healthy ↔
        ∀ aid ∈ as, ∀ ag, getAssoc agents aid = some ag → ag.detected = true →
          checkAssignment fs (ag.globalPath ++ [s]) (skillsDir ++ [s]) =
            .healthy)) := by
  refine ⟨fun p t => checkAssignment_spec fs p t, ?_⟩
  intro s as hmem
  have hrd : (runDoctor fs skillsDir agents registry).healthy =
      [] ++ (registry.filter (fun row => row.2.all (fun aid =>
        match getAssoc agents aid with
        | none => true
        | some ag => !ag.detected ||
            decide (checkAssignment fs (ag.globalPath ++ [row.1])
              (skillsDir ++ [row.1]) = .healthy)))).map Prod.fst :=
    doctorOuter_spec fs skillsDir agents registry ⟨[], [], []⟩
  rw [hrd, List.nil_append]
  constructor
  · intro h
    rcases List.mem_map.1 h with ⟨row, hrow, hfst⟩
    have hrreg : row ∈ registry := List.mem_of_mem_filter hrow
    have hget1 : getAssoc registry s = some as := mem_getAssoc registry hnd s as hmem
    have hget2 : getAssoc registry row.1 = some row.2 :=
      mem_getAssoc registry hnd row.1 row.2 (by simpa using hrreg)
    rw [hfst, hget1] at hget2
    have hrow2 : row.2 = as := Option.some.inj hget2.symm
    have hcond := (List.mem_filter.1 hrow).2
    rw [allOkB_iff] at hcond
    rw [hfst, hrow2] at hcond
    exact hcond
  · intro hall
    apply List.mem_map.2
    refine ⟨(s, as), List.mem_filter.2 ⟨hmem, ?_⟩, rfl⟩
    rw [allOkB_iff]
    exact hall

/-- Closed instance of `runDoctor_spec` on a one-skill registry whose
assignment is a healthy symlink into the store. -/
theorem runDoctor_spec_witness :
    (∀ p t,
      (checkAssignment
        [(["agents", "a", "foo"], Node.symlink ["store", "foo"]),
          (["store", "foo", "SKILL.md"], Node.file),
          (["store", "foo"], Node.dir)] p t = .healthy ↔
        lookupL [(["agents", "a", "foo"], Node.symlink ["store", "foo"]),
          (["store", "foo", "SKILL.md"], Node.file),
          (["store", "foo"], Node.dir)] p = some (.symlink t) ∧
        accessB [(["agents", "a", "foo"], Node.symlink ["store", "foo"]),
          (["store", "foo", "SKILL.md"], Node.file),
          (["store", "foo"], Node.dir)] t = true) ∧
      (checkAssignment
        [(["agents", "a", "foo"], Node.symlink ["store", "foo"]),
          (["store", "foo", "SKILL.md"], Node.file),
          (["store", "foo"], Node.dir)] p t = .rogue ↔
        (lookupL [(["agents", "a", "foo"], Node.symlink ["store", "foo"]),
          (["store", "foo", "SKILL.md"], Node.file),
          (["store", "foo"], Node.dir)] p = some .file ∨
        lookupL [(["agents", "a", "foo"], Node.symlink ["store", "foo"]),
          (["store", "foo", "SKILL.md"], Node.file),
          (["store", "foo"], Node.dir)] p = some .dir)) ∧
      (checkAssignment
        [(["agents", "a", "foo"], Node.symlink ["store", "foo"]),
          (["store", "foo", "SKILL.md"], Node.file),
          (["store", "foo"], Node.dir)] p t = .brokenMissing ↔
        lookupL [(["agents", "a", "foo"], Node.symlink ["store", "foo"]),
          (["store", "foo", "SKILL.md"], Node.file),
          (["store", "foo"], Node.dir)] p = none) ∧
      (checkAssignment
        [(["agents", "a", "foo"], Node.symlink ["store", "foo"]),
          (["store", "foo", "SKILL.md"], Node.file),
          (["store", "foo"], Node.dir)] p t = .brokenTargetMissing ↔
        ∃ u, lookupL [(["agents", "a", "foo"], Node.symlink ["store", "foo"]),
          (["store", "foo", "SKILL.md"], Node.file),
          (["store", "foo"], Node.dir)] p = some (.symlink u) ∧
        accessB [(["agents", "a", "foo"], Node.symlink ["store", "foo"]),
          (["store", "foo", "SKILL.md"], Node.file),
          (["store", "foo"], Node.dir)] u = false) ∧
      (∀ u, checkAssignment
        [(["agents", "a", "foo"], Node.symlink ["store", "foo"]),
          (["store", "foo", "SKILL.md"], Node.file),
          (["store", "foo"], Node.dir)] p t = .brokenWrongTarget u ↔
        (lookupL [(["agents", "a", "foo"], Node.symlink ["store", "foo"]),
          (["store", "foo", "SKILL.md"], Node.file),
          (["store", "foo"], Node.dir)] p = some (.symlink u) ∧ u ≠ t ∧
        accessB [(["agents", "a", "foo"], Node.symlink ["store", "foo"]),
          (["store", "foo", "SKILL.md"], Node.file),
          (["store", "foo"], Node.dir)] u = true))) ∧
    (∀ s as, (s, as) ∈ [("foo", ["a"])] →
      (s ∈ (runDoctor
        [(["agents", "a", "foo"], Node.symlink ["store", "foo"]),
          (["store", "foo", "SKILL.md"], Node.file),
          (["store", "foo"], Node.dir)] ["store"]
        [("a", ⟨["agents", "a"], true⟩)] [("foo", ["a"])]).healthy ↔
        ∀ aid ∈ as, ∀ ag,
          getAssoc [("a", (⟨["agents", "a"], true⟩ : Agent))] aid = some ag →
          ag.detected = true →
          checkAssignment
            [(["agents", "a", "foo"], Node.symlink ["store", "foo"]),
              (["store", "foo", "SKILL.md"], Node.file),
              (["store", "foo"], Node.dir)]
            (ag.globalPath ++ [s]) (["store"] ++ [s]) = .healthy)) :=
  runDoctor_spec
    [(["agents", "a", "foo"], Node.symlink ["store", "foo"]),
      (["store", "foo", "SKILL.md"], Node.file),
      (["store", "foo"], Node.dir)]
    ["store"] [("a", ⟨["agents", "a"], true⟩)] [("foo", ["a"])] (by decide)

/-! ## Helper lemmas: snapshot id format and ordering -/

theorem padC_length (w n : Nat) : (padC w n).length = w := by
  induction w generalizing n with
  | zero => rfl
  | succ w ih => simp [padC, ih]

theorem digitChar_toNat (d : Nat) (h : d < 10) : (Nat.digitChar d).toNat = 48 + d := by
  interval_cases d <;> rfl

theorem ordThen_eq_right (o : Ordering) : ordThen o .eq = o := by
  cases o <;> rfl

theorem natListCmp_append_ordThen (xs ys as bs : List Nat)
    (hlen : xs.length = ys.length) :
    natListCmp (xs ++ as) (ys ++ bs) = ordThen (natListCmp xs ys) (natListCmp as bs) := by
  induction xs generalizing ys with
  | nil =>
    cases ys with
    | nil => rfl
    | cons y ys2 => cases hlen
  | cons x xs2 ih =>
    cases ys with
    | nil => cases hlen
    | cons y ys2 =>
      simp only [List.length_cons, Nat.succ.injEq] at hlen
      simp only [List.cons_append, natListCmp]
      by_cases h1 : x < y
      · simp [h1, ordThen]
      · by_cases h2 : y < x
        · simp [h1, h2, ordThen]
        · simp only [if_neg h1, if_neg h2]
          exact ih ys2 hlen

theorem natListCmp_cons_compare (x y : Nat) (xs ys : List Nat) :
    natListCmp (x :: xs) (y :: ys) = ordThen (compare x y) (natListCmp xs ys) := by
  rw [Nat.compare_def_lt]
  simp only [natListCmp]
  by_cases h1 : x < y
  · simp [h1, ordThen]
  · by_cases h2 : y < x
    · simp [h1, h2, ordThen]
    · simp [h1, h2, ordThen]

theorem compare_div_mod (n m : Nat) :
    compare n m = ordThen (compare (n / 10) (m / 10)) (compare (n % 10) (m % 10)) := by
  rcases Nat.lt_trichotomy (n / 10) (m / 10) with h | h | h
  · have hlt : n < m := by omega
    rw [Nat.compare_eq_lt.2 hlt, Nat.compare_eq_lt.2 h]
    rfl
  · rw [h]
    have hself : compare (m / 10) (m / 10) = .eq := Nat.compare_eq_eq.2 rfl
    rw [hself]
    have : compare n m = compare (n % 10) (m % 10) := by
      rw [Nat.compare_def_lt, Nat.compare_def_lt]
      have e1 : n < m ↔ n % 10 < m % 10 := by omega
      have e2 : m < n ↔ m % 10 < n % 10 := by omega
      by_cases hx : n < m
      · rw [if_pos hx, if_pos (e1.1 hx)]
      · rw [if_neg hx, if_neg (fun hc => hx (e1.2 hc))]
        by_cases hy : m < n
        · rw [if_pos hy, if_pos (e2.1 hy)]
        · rw [if_neg hy, if_neg (fun hc => hy (e2.2 hc))]
    rw [this]
    rfl
  · have hgt : m < n := by omega
    rw [Nat.compare_eq_gt.2 hgt, Nat.compare_eq_gt.2 h]
    rfl

theorem padC_cmp (w : Nat) : ∀ n m : Nat, n < 10 ^ w → m < 10 ^ w →
    natListCmp ((padC w n).map Char.toNat) ((padC w m).map Char.toNat) =
      compare n m := by
  induction w with
  | zero =>
    intro n m hn hm
    have hn0 : n = 0 := by simpa using hn
    have hm0 : m = 0 := by simpa using hm
    subst hn0; subst hm0
    rfl
  | succ w ih =>
    intro n m hn hm
    have hcodes : ∀ k : Nat, (padC (w + 1) k).map Char.toNat =
        (padC w (k / 10)).map Char.toNat ++ [48 + k % 10] := by
      intro k
      simp only [padC, List.map_append, List.map_cons, List.map_nil]
      rw [digitChar_toNat (k % 10) (Nat.mod_lt k (by omega))]
    rw [hcodes n, hcodes m]
    rw [natListCmp_append_ordThen _ _ _ _ (by simp [padC_length])]
    have hdiv : ∀ k : Nat, k < 10 ^ (w + 1) → k / 10 < 10 ^ w := by
      intro k hk
      rw [pow_succ] at hk
      omega
    rw [ih (n / 10) (m / 10) (hdiv n hn) (hdiv m hm)]
    have htail : natListCmp [48 + n % 10] [48 + m % 10] = compare (n % 10) (m % 10) := by
      rw [Nat.compare_def_lt]
      simp only [natListCmp]
      have e1 : 48 + n % 10 < 48 + m % 10 ↔ n % 10 < m % 10 := by omega
      have e2 : 48 + m % 10 < 48 + n % 10 ↔ m % 10 < n % 10 := by omega
      by_cases hx : n % 10 < m % 10
      · rw [if_pos (e1.2 hx), if_pos hx]
      · rw [if_neg (fun hc => hx (e1.1 hc)), if_neg hx]
        by_cases hy : m % 10 < n % 10
        · rw [if_pos (e2.2 hy), if_pos hy]
        · rw [if_neg (fun hc => hy (e2.1 hc)), if_neg hy]
    rw [htail]
    exact (compare_div_mod n m).symm

theorem natListCmp_pad_sep (w n m : Nat) (hn : n < 10 ^ w) (hm : m < 10 ^ w)
    (c : Char) (r1 r2 : List Nat) :
    natListCmp ((padC w n).map Char.toNat ++ c.toNat :: r1)
      ((padC w m).map Char.toNat ++ c.toNat :: r2) =
      ordThen (compare n m) (natListCmp r1 r2) := by
  rw [natListCmp_append_ordThen _ _ _ _ (by simp [padC_length])]
  rw [padC_cmp w n m hn hm]
  have : natListCmp (c.toNat :: r1) (c.toNat :: r2) = natListCmp r1 r2 := by
    simp [natListCmp]
  rw [this]

theorem generateId_cmp (a b : DateTime) (ha : a.valid) (hb : b.valid) :
    natListCmp (strCodes (generateId a)) (strCodes (generateId b)) =
      natListCmp a.key b.key := by
  obtain ⟨hay, ham1, ham2, had1, had2, hah, hami, has, hams⟩ := ha
  obtain ⟨hby, hbm1, hbm2, hbd1, hbd2, hbh, hbmi, hbs, hbms⟩ := hb
  have h4 : (10:Nat) ^ 4 = 10000 := by norm_num
  have h2 : (10:Nat) ^ 2 = 100 := by norm_num
  have h3 : (10:Nat) ^ 3 = 1000 := by norm_num
  have hcodes : ∀ d : DateTime, strCodes (generateId d) =
      (padC 4 d.year).map Char.toNat ++ (45 :: ((padC 2 d.month).map Char.toNat ++
        (45 :: ((padC 2 d.day).map Char.toNat ++ (84 :: ((padC 2 d.hour).map Char.toNat ++
          (45 :: ((padC 2 d.minute).map Char.toNat ++ (45 :: ((padC 2 d.second).map Char.toNat ++
            (45 :: (padC 3 d.ms).map Char.toNat))))))))))) := by
    intro d
    show ((padC 4 d.year ++ '-' :: padC 2 d.month ++ '-' :: padC 2 d.day ++
      'T' :: padC 2 d.hour ++ '-' :: padC 2 d.minute ++ '-' :: padC 2 d.second ++
      '-' :: padC 3 d.ms).map Char.toNat) = _
    simp [List.map_append, List.map_cons]
  rw [hcodes a, hcodes b]
  have e45 : (45 : Nat) = ('-').toNat := rfl
  have e84 : (84 : Nat) = ('T').toNat := rfl
  rw [e45, e84]
  rw [natListCmp_pad_sep 4 a.year b.year (by omega) (by omega) '-']
  rw [natListCmp_pad_sep 2 a.month b.month (by omega) (by omega) '-']
  rw [natListCmp_pad_sep 2 a.day b.day (by omega) (by omega) 'T']
  rw [natListCmp_pad_sep 2 a.hour b.hour (by omega) (by omega) '-']
  rw [natListCmp_pad_sep 2 a.minute b.minute (by omega) (by omega) '-']
  rw [natListCmp_pad_sep 2 a.second b.second (by omega) (by omega) '-']
  rw [padC_cmp 3 a.ms b.ms (by omega) (by omega)]
  show _ = natListCmp
    [a.year, a.month, a.day, a.hour, a.minute, a.second, a.ms]
    [b.year, b.month, b.day, b.hour, b.minute, b.second, b.ms]
  rw [natListCmp_cons_compare, natListCmp_cons_compare, natListCmp_cons_compare,
    natListCmp_cons_compare, natListCmp_cons_compare, natListCmp_cons_compare,
    natListCmp_cons_compare]
  rw [show natListCmp ([] : List Nat) [] = .eq from rfl]
  rw [ordThen_eq_right]

/-- C9: snapshot ids generated from the UTC calendar instant are
sortable — for valid instants, lexicographic (code-unit) order of the
generated ids coincides with chronological order — and distinct
instants (in particular instants differing only in the millisecond
field) receive distinct ids. -/
theorem generateId_sortable (a b : DateTime) (ha : a.valid) (hb : b.valid) :
    (chronLt a b ↔
      natListCmp (strCodes (generateId a)) (strCodes (generateId b)) = .lt) ∧
    (a ≠ b → generateId a ≠ generateId b) := by
  have hmain := generateId_cmp a b ha hb
  constructor
  · unfold chronLt
    rw [hmain]
  · intro hne hid
    have hcodes : strCodes (generateId a) = strCodes (generateId b) := by
      rw [hid]
    rw [hcodes, natListCmp_self] at hmain
    have hkeys : a.key = b.key := (natListCmp_eq_iff _ _).1 hmain.symm
    apply hne
    cases a
    cases b
    simp only [DateTime.key, List.cons.injEq, and_true] at hkeys
    simp_all

/-- Closed instance of `generateId_sortable` at two instants in the
same second differing only in milliseconds. -/
theorem generateId_sortable_witness :
    (chronLt ⟨2026, 1, 16, 9, 5, 3, 42⟩ ⟨2026, 1, 16, 9, 5, 3, 43⟩ ↔
      natListCmp (strCodes (generateId ⟨2026, 1, 16, 9, 5, 3, 42⟩))
        (strCodes (generateId ⟨2026, 1, 16, 9, 5, 3, 43⟩)) = .lt) ∧
    ((⟨2026, 1, 16, 9, 5, 3, 42⟩ : DateTime) ≠ ⟨2026, 1, 16, 9, 5, 3, 43⟩ →
      generateId ⟨2026, 1, 16, 9, 5, 3, 42⟩ ≠ generateId ⟨2026, 1, 16, 9, 5, 3, 43⟩) :=
  generateId_sortable ⟨2026, 1, 16, 9, 5, 3, 42⟩ ⟨2026, 1, 16, 9, 5, 3, 43⟩
    (by simp [DateTime.valid]) (by simp [DateTime.valid])

/-! ## Helper lemmas: snapshot creation and restore -/

theorem isPrefixOf_append_self (a X : Path) : a.isPrefixOf (a ++ X) = true :=
  List.isPrefixOf_iff_prefix.2 (List.prefix_append a X)

theorem createSnapshot_single (snapshotsDir : Path) (maxCount : Nat) (w0 : World)
    (d : DateTime) (D : Path) (reason : String)
    (hmax : 1 ≤ maxCount) (hman0 : w0.manifests = []) :
    createSnapshot snapshotsDir maxCount w0 d [D] reason =
      ⟨cpFS w0.fs D ((snapshotsDir ++ [generateId d, "skills"]) ++ [basename D]),
        [⟨generateId d, reason, d, [basename D]⟩]⟩ := by
  simp only [createSnapshot, List.foldl_cons, List.foldl_nil, List.map_cons,
    List.map_nil, hman0, List.nil_append]
  unfold pruneOldSnapshots
  have hl : listSnapshots
      ⟨cpFS w0.fs D ((snapshotsDir ++ [generateId d, "skills"]) ++ [basename D]),
        [⟨generateId d, reason, d, [basename D]⟩]⟩ =
      [⟨generateId d, reason, d, [basename D]⟩] := rfl
  simp only [hl, List.length_cons, List.length_nil]
  rw [if_pos (by omega)]

/-- C7: snapshotting a directory `D`, then mutating the filesystem
arbitrarily outside the snapshot store, then restoring that snapshot
into `D`'s parent leaves `D`'s subtree byte-identical to its state at
snapshot time; the restore removes whatever is at the target and
copies the snapshotted content last-write-wins. -/
theorem snapshot_roundtrip (snapshotsDir : Path) (maxCount : Nat) (w0 : World)
    (d : DateTime) (D : Path) (reason : String) (fs2 : FS)
    (hmax : 1 ≤ maxCount)
    (hman0 : w0.manifests = [])
    (hnd : (w0.fs.map Prod.fst).Nodup)
    (hclean : ∀ p, snapshotsDir.isPrefixOf p = true → lookupFS w0.fs p = none)
    (hDne : D ≠ [])
    (hdisj1 : snapshotsDir.isPrefixOf D = false)
    (hdisj2 : D.isPrefixOf snapshotsDir = false)
    (hnd2 : (fs2.map Prod.fst).Nodup)
    (hmut : ∀ p, snapshotsDir.isPrefixOf p = true →
      lookupFS fs2 p =
        lookupFS (createSnapshot snapshotsDir maxCount w0 d [D] reason).fs p) :
    ∃ w3, restore snapshotsDir
        ⟨fs2, (createSnapshot snapshotsDir maxCount w0 d [D] reason).manifests⟩
        (generateId d) D.dropLast = Except.ok w3 ∧
      ∀ rel, lookupFS w3.fs (D ++ rel) = lookupFS w0.fs (D ++ rel) := by
  have hw1 := createSnapshot_single snapshotsDir maxCount w0 d D reason hmax hman0
  rw [hw1]
  rw [hw1] at hmut
  simp only at hmut ⊢
  have hDfull : D.dropLast ++ [basename D] = D := by
    have hgl : D.getLast? = some (D.getLast hDne) := List.getLast?_eq_getLast D hDne
    unfold basename
    rw [hgl]
    simp only [Option.getD_some]
    exact List.dropLast_append_getLast hDne
  have hback : ∀ rel : Path,
      lookupFS (cpFS w0.fs D ((snapshotsDir ++ [generateId d, "skills"]) ++ [basename D]))
        (((snapshotsDir ++ [generateId d, "skills"]) ++ [basename D]) ++ rel) =
      lookupFS w0.fs (D ++ rel) := by
    intro rel
    rw [lookupFS_cpFS_in w0.fs D _ rel hnd]
    have hcl : lookupFS w0.fs
        (((snapshotsDir ++ [generateId d, "skills"]) ++ [basename D]) ++ rel) = none := by
      apply hclean
      have : ((snapshotsDir ++ [generateId d, "skills"]) ++ [basename D]) ++ rel =
          snapshotsDir ++ (([generateId d, "skills"] ++ [basename D]) ++ rel) := by
        simp [List.append_assoc]
      rw [this]
      exact isPrefixOf_append_self snapshotsDir _
    rw [hcl]
    cases lookupFS w0.fs (D ++ rel) <;> rfl
  unfold restore
  have hfind : List.find? (fun m => decide (m.id = generateId d))
      [(⟨generateId d, reason, d, [basename D]⟩ : SnapshotManifest)] =
      some ⟨generateId d, reason, d, [basename D]⟩ :=
    List.find?_cons_of_pos _ (by simp)
  simp only [hfind, List.foldl_cons, List.foldl_nil]
  refine ⟨_, rfl, ?_⟩
  intro rel
  simp only []
  have hsrc : snapshotsDir ++ [generateId d, "skills", basename D] =
      (snapshotsDir ++ [generateId d, "skills"]) ++ [basename D] := by
    simp [List.append_assoc]
  rw [hDfull, hsrc]
  rw [lookupFS_cpFS_in (rmFS fs2 D) _ D rel (rmFS_keys fs2 D hnd2)]
  have hrmout : lookupFS (rmFS fs2 D)
      (((snapshotsDir ++ [generateId d, "skills"]) ++ [basename D]) ++ rel) =
      lookupFS fs2 (((snapshotsDir ++ [generateId d, "skills"]) ++ [basename D]) ++ rel) := by
    apply lookupFS_rmFS_out
    have hre : ((snapshotsDir ++ [generateId d, "skills"]) ++ [basename D]) ++ rel =
        snapshotsDir ++ (([generateId d, "skills"] ++ [basename D]) ++ rel) := by
      simp [List.append_assoc]
    rw [hre]
    exact not_prefix_append D snapshotsDir hdisj2 hdisj1 _
  have hunder : snapshotsDir.isPrefixOf
      (((snapshotsDir ++ [generateId d, "skills"]) ++ [basename D]) ++ rel) = true := by
    have hre : ((snapshotsDir ++ [generateId d, "skills"]) ++ [basename D]) ++ rel =
        snapshotsDir ++ (([generateId d, "skills"] ++ [basename D]) ++ rel) := by
      simp [List.append_assoc]
    rw [hre]
    exact isPrefixOf_append_self snapshotsDir _
  rw [hrmout, hmut _ hunder, hback rel]
  have hrmunder : lookupFS (rmFS fs2 D) (D ++ rel) = none :=
    lookupFS_rmFS_under fs2 D (D ++ rel) (isPrefixOf_append_self D rel)
  rw [hrmunder]
  cases lookupFS w0.fs (D ++ rel) <;> rfl

/-- Closed instance of `snapshot_roundtrip`: snapshot a one-file
directory, overwrite the file, restore, and apply the theorem. -/
theorem snapshot_roundtrip_witness :
    ∃ w3, restore ["snaps"]
        ⟨[(["skills", "foo", "SKILL.md"], "mutated"),
            (["snaps", "2026-01-16T09-05-03-042", "skills", "foo", "SKILL.md"], "orig")],
          (createSnapshot ["snaps"] 5
            ⟨[(["skills", "foo", "SKILL.md"], "orig")], []⟩
            ⟨2026, 1, 16, 9, 5, 3, 42⟩ [["skills", "foo"]] "pre-sync").manifests⟩
        (generateId ⟨2026, 1, 16, 9, 5, 3, 42⟩) (["skills", "foo"] : Path).dropLast =
        Except.ok w3 ∧
      ∀ rel, lookupFS w3.fs (["skills", "foo"] ++ rel) =
        lookupFS [(["skills", "foo", "SKILL.md"], "orig")] (["skills", "foo"] ++ rel) :=
  snapshot_roundtrip ["snaps"] 5 ⟨[(["skills", "foo", "SKILL.md"], "orig")], []⟩
    ⟨2026, 1, 16, 9, 5, 3, 42⟩ ["skills", "foo"] "pre-sync"
    [(["skills", "foo", "SKILL.md"], "mutated"),
      (["snaps", "2026-01-16T09-05-03-042", "skills", "foo", "SKILL.md"], "orig")]
    (by omega) rfl (by decide)
    (by
      intro p hp
      have hne : ¬ ((["skills", "foo", "SKILL.md"] : Path) = p) := by
        intro he
        rw [← he] at hp
        exact absurd hp (by decide)
      show getAssoc [(["skills", "foo", "SKILL.md"], "orig")] p = none
      rw [getAssoc_cons, if_neg hne]
      rfl)
    (by decide) (by decide) (by decide) (by decide)
    (by
      intro p hp
      have hw1fs : (createSnapshot ["snaps"] 5
          ⟨[(["skills", "foo", "SKILL.md"], "orig")], []⟩
          ⟨2026, 1, 16, 9, 5, 3, 42⟩ [["skills", "foo"]] "pre-sync").fs =
          [(["snaps", "2026-01-16T09-05-03-042", "skills", "foo", "SKILL.md"], "orig"),
            (["skills", "foo", "SKILL.md"], "orig")] := by rfl
      rw [hw1fs]
      have hne1 : ¬ ((["skills", "foo", "SKILL.md"] : Path) = p) := by
        intro he
        rw [← he] at hp
        exact absurd hp (by decide)
      by_cases hps :
        (["snaps", "2026-01-16T09-05-03-042", "skills", "foo", "SKILL.md"] : Path) = p
      · rw [← hps]
        rfl
      · have hL : lookupFS [(["skills", "foo", "SKILL.md"], "mutated"),
            (["snaps", "2026-01-16T09-05-03-042", "skills", "foo", "SKILL.md"],
              "orig")] p = none := by
          show getAssoc _ p = none
          rw [getAssoc_cons, if_neg hne1, getAssoc_cons, if_neg hps]
          rfl
        have hR : lookupFS
            [(["snaps", "2026-01-16T09-05-03-042", "skills", "foo", "SKILL.md"],
              "orig"), (["skills", "foo", "SKILL.md"], "orig")] p = none := by
          show getAssoc _ p = none
          rw [getAssoc_cons, if_neg hps, getAssoc_cons, if_neg hne1]
          rfl
        rw [hL, hR])

/-! ## Helper lemmas: snapshot retention -/

theorem orderedInsert_append_of_not (r : SnapshotManifest → SnapshotManifest → Prop)
    [DecidableRel r] (a : SnapshotManifest) (l : List SnapshotManifest)
    (h : ∀ b ∈ l, ¬ r a b) : List.orderedInsert r a l = l ++ [a] := by
  induction l with
  | nil => rfl
  | cons b bs ih =>
    rw [List.orderedInsert, if_neg (h b (List.mem_cons_self b bs))]
    rw [ih (fun b2 hb2 => h b2 (List.mem_cons_of_mem b hb2))]
    rfl

theorem insertionSort_chron_asc (l : List SnapshotManifest)
    (h : List.Pairwise (fun a b => chronLt a.created b.created) l) :
    List.insertionSort manifestGe l = l.reverse := by
  induction l with
  | nil => rfl
  | cons m rest ih =>
    have hrest := List.pairwise_cons.1 h
    show List.orderedInsert manifestGe m (List.insertionSort manifestGe rest) =
      (m :: rest).reverse
    rw [ih hrest.2, List.reverse_cons]
    apply orderedInsert_append_of_not
    intro b hb
    have hmb : chronLt m.created b.created := hrest.1 b (List.mem_reverse.1 hb)
    unfold chronLt at hmb
    unfold manifestGe chronLtB
    intro hfalse
    rw [hmb] at hfalse
    exact absurd hfalse (by decide)

theorem isPrefixOf_trans_path (a b q : Path) (hab : a.isPrefixOf b = true)
    (hbq : b.isPrefixOf q = true) : a.isPrefixOf q = true :=
  List.isPrefixOf_iff_prefix.2
    ((List.isPrefixOf_iff_prefix.1 hab).trans (List.isPrefixOf_iff_prefix.1 hbq))

theorem cpFold_keys (B : Path) (paths : List Path) (fs : FS)
    (hnd : (fs.map Prod.fst).Nodup) :
    ((paths.foldl (fun fs p => cpFS fs p (B ++ [basename p])) fs).map Prod.fst).Nodup := by
  induction paths generalizing fs with
  | nil => exact hnd
  | cons p rest ih =>
    rw [List.foldl_cons]
    exact ih _ (cpFS_keys fs p _ hnd)

theorem cpFold_out (B : Path) (paths : List Path) (fs : FS)
    (hnd : (fs.map Prod.fst).Nodup) (q : Path) (hq : B.isPrefixOf q = false) :
    lookupFS (paths.foldl (fun fs p => cpFS fs p (B ++ [basename p])) fs) q =
      lookupFS fs q := by
  induction paths generalizing fs with
  | nil => rfl
  | cons p rest ih =>
    rw [List.foldl_cons, ih _ (cpFS_keys fs p _ hnd)]
    apply lookupFS_cpFS_out fs p _ q hnd
    cases hx : (B ++ [basename p]).isPrefixOf q with
    | false => rfl
    | true =>
      have := isPrefixOf_trans_path B (B ++ [basename p]) q
        (isPrefixOf_append_self B _) hx
      rw [this] at hq
      cases hq

theorem generateId_ne_of_chronLt (a b : DateTime) (ha : a.valid) (hb : b.valid)
    (h : chronLt a b) : generateId a ≠ generateId b := by
  intro hid
  have hm := generateId_cmp a b ha hb
  rw [hid, natListCmp_self] at hm
  unfold chronLt at h
  rw [← hm] at h
  cases h

theorem runSnapshots_inv (snapshotsDir : Path) (K : Nat) (w0 : World)
    (hman0 : w0.manifests = [])
    (hnd0 : (w0.fs.map Prod.fst).Nodup)
    (hclean : ∀ p, snapshotsDir.isPrefixOf p = true → lookupFS w0.fs p = none)
    (reqs : List (DateTime × List Path × String)) :
    (∀ q ∈ reqs, (q.1 : DateTime).valid) →
    List.Pairwise chronLt (reqs.map (fun q => q.1)) →
    ((runSnapshots snapshotsDir K w0 reqs).manifests =
      (reqs.map (fun q => (⟨generateId q.1, q.2.2, q.1, q.2.1.map basename⟩ :
        SnapshotManifest))).drop (reqs.length - K) ∧
    ((runSnapshots snapshotsDir K w0 reqs).fs.map Prod.fst).Nodup ∧
    (∀ p, snapshotsDir.isPrefixOf p = true →
      lookupFS (runSnapshots snapshotsDir K w0 reqs).fs p ≠ none →
      ∃ m ∈ (runSnapshots snapshotsDir K w0 reqs).manifests,
        (snapshotsDir ++ [m.id]).isPrefixOf p = true)) := by
  induction reqs using List.reverseRecOn with
  | nil =>
    intro hvalid hinc
    refine ⟨by simp [runSnapshots, hman0], by simpa [runSnapshots] using hnd0, ?_⟩
    intro p hp hne
    exact absurd (by simpa [runSnapshots] using hclean p hp) hne
  | append_singleton l r ih =>
    intro hvalid hinc
    have hmapapp : (l ++ [r]).map (fun q => q.1) =
        l.map (fun q => q.1) ++ [r.1] := by simp
    rw [hmapapp] at hinc
    have hincparts := List.pairwise_append.1 hinc
    have hincl := hincparts.1
    have hlast : ∀ x ∈ l.map (fun q => q.1), chronLt x r.1 :=
      fun x hx => hincparts.2.2 x hx r.1 (by simp)
    have hvalidl : ∀ q ∈ l, (q.1 : DateTime).valid :=
      fun q h => hvalid q (List.mem_append_left _ h)
    have hvalidr : (r.1 : DateTime).valid := hvalid r (by simp)
    obtain ⟨ihman, ihnd, ihfs⟩ := ih hvalidl hincl
    have hrun : runSnapshots snapshotsDir K w0 (l ++ [r]) =
        createSnapshot snapshotsDir K (runSnapshots snapshotsDir K w0 l)
          r.1 r.2.1 r.2.2 := by
      unfold runSnapshots
      rw [List.foldl_append]
      rfl
    set wP := runSnapshots snapshotsDir K w0 l with hwP
    set msl := l.map (fun q => (⟨generateId q.1, q.2.2, q.1, q.2.1.map basename⟩ :
      SnapshotManifest)) with hmsl
    set mkr : SnapshotManifest :=
      ⟨generateId r.1, r.2.2, r.1, r.2.1.map basename⟩ with hmkr
    set B := snapshotsDir ++ [generateId r.1, "skills"] with hB
    have hcs : createSnapshot snapshotsDir K wP r.1 r.2.1 r.2.2 =
        pruneOldSnapshots snapshotsDir K
          ⟨r.2.1.foldl (fun fs p => cpFS fs p (B ++ [basename p])) wP.fs,
            wP.manifests ++ [mkr]⟩ := rfl
    set AC := r.2.1.foldl (fun fs p => cpFS fs p (B ++ [basename p])) wP.fs with hAC
    set L := wP.manifests ++ [mkr] with hLdef
    have hndA : (AC.map Prod.fst).Nodup := cpFold_keys B r.2.1 wP.fs ihnd
    have houtA : ∀ q, B.isPrefixOf q = false → lookupFS AC q = lookupFS wP.fs q :=
      fun q hq => cpFold_out B r.2.1 wP.fs ihnd q hq
    have hmemfact : ∀ m ∈ msl ++ [mkr], m.created.valid ∧
        m.id = generateId m.created := by
      intro m hm
      rcases List.mem_append.1 hm with hm1 | hm1
      · rw [hmsl] at hm1
        rcases List.mem_map.1 hm1 with ⟨a, ha, rfl⟩
        exact ⟨hvalidl a ha, rfl⟩
      · have hmm : m = mkr := by simpa using hm1
        rw [hmm]
        exact ⟨hvalidr, rfl⟩
    have hpairms : List.Pairwise (fun a b => chronLt a.created b.created)
        (msl ++ [mkr]) := by
      rw [List.pairwise_append]
      refine ⟨?_, List.pairwise_singleton _ _, ?_⟩
      · rw [hmsl, List.pairwise_map]
        exact List.pairwise_map.1 hincl
      · intro a ha b hb
        have hbm : b = mkr := by simpa using hb
        rw [hmsl] at ha
        rcases List.mem_map.1 ha with ⟨x, hx, rfl⟩
        rw [hbm]
        exact hlast x.1 (List.mem_map_of_mem _ hx)
    have hLsub : List.Sublist L (msl ++ [mkr]) := by
      rw [hLdef, ihman]
      exact List.Sublist.append (List.drop_sublist _ _) (List.Sublist.refl _)
    have hpairL : List.Pairwise (fun a b => chronLt a.created b.created) L :=
      List.Pairwise.sublist hLsub hpairms
    have hsorted : listSnapshots ⟨AC, L⟩ = L.reverse := by
      unfold listSnapshots
      exact insertionSort_chron_asc L hpairL
    have hlmsl : msl.length = l.length := by
      rw [hmsl, List.length_map]
    have hlenwP : wP.manifests.length = l.length - (l.length - K) := by
      rw [ihman, List.length_drop, hlmsl]
    have hlenL : L.length = wP.manifests.length + 1 := by
      rw [hLdef]
      simp
    have hms2 : (l ++ [r]).map (fun q => (⟨generateId q.1, q.2.2, q.1,
        q.2.1.map basename⟩ : SnapshotManifest)) = msl ++ [mkr] := by
      rw [List.map_append]
      rfl
    have hlapp : (l ++ [r]).length = l.length + 1 := by simp
    rw [hrun, hcs]
    by_cases hcase : L.length ≤ K
    · have hprune : pruneOldSnapshots snapshotsDir K ⟨AC, L⟩ = ⟨AC, L⟩ := by
        unfold pruneOldSnapshots
        simp only [hsorted, List.length_reverse]
        rw [if_pos hcase]
      rw [hprune]
      have hn1 : (l ++ [r]).length - K = 0 := by omega
      have hn0 : l.length - K = 0 := by omega
      refine ⟨?_, hndA, ?_⟩
      · show L = ((l ++ [r]).map _).drop ((l ++ [r]).length - K)
        rw [hms2, hn1, List.drop_zero, hLdef, ihman]
        rw [show l.length - K = 0 from hn0, List.drop_zero]
      · intro p hp hne
        by_cases hBp : B.isPrefixOf p = true
        · refine ⟨mkr, ?_, ?_⟩
          · rw [hLdef]
            exact List.mem_append.2 (Or.inr (by simp))
          · have hdirB : (snapshotsDir ++ [generateId r.1]).isPrefixOf B = true := by
              rw [hB]
              rw [show snapshotsDir ++ [generateId r.1, "skills"] =
                (snapshotsDir ++ [generateId r.1]) ++ ["skills"] from by simp]
              exact isPrefixOf_append_self _ _
            exact isPrefixOf_trans_path _ B p hdirB hBp
        · have hBp2 : B.isPrefixOf p = false := by
            cases hx : B.isPrefixOf p with
            | false => rfl
            | true => exact absurd hx hBp
          rw [houtA p hBp2] at hne
          obtain ⟨m, hmem, hpre⟩ := ihfs p hp hne
          refine ⟨m, ?_, hpre⟩
          rw [hLdef]
          exact List.mem_append.2 (Or.inl hmem)
    · have hcase2 : K < L.length := by omega
      have hKwP : wP.manifests.length = K := by omega
      have hnK : K ≤ l.length := by omega
      have hW : wP.manifests = msl.drop (l.length - K) := ihman
      have hLne : L ≠ [] := by
        rw [hLdef]
        simp
      obtain ⟨m0, L2, hL⟩ := List.exists_cons_of_ne_nil hLne
      · have hlenL2 : L2.length = K := by
          have hc := congrArg List.length hL
          simp only [List.length_cons] at hc
          omega
        have htoDel : (L.reverse).drop K = [m0] := by
          rw [hL, List.reverse_cons]
          rw [show K = L2.reverse.length from by rw [List.length_reverse]; omega]
          rw [List.drop_left]
        have hprune : pruneOldSnapshots snapshotsDir K ⟨AC, L⟩ =
            ⟨rmFS AC (snapshotsDir ++ [m0.id]),
              L.filter (fun m2 => decide (m2.id ≠ m0.id))⟩ := by
          unfold pruneOldSnapshots
          simp only [hsorted, List.length_reverse]
          rw [if_neg (by omega), htoDel]
          rfl
        rw [hprune]
        have hmemL : ∀ m ∈ L, m.created.valid ∧ m.id = generateId m.created :=
          fun m hm => hmemfact m (hLsub.subset hm)
        have hids : ∀ m2 ∈ L2, m2.id ≠ m0.id := by
          intro m2 hm2 heq
          have hchron : chronLt m0.created m2.created := by
            have hpc := List.pairwise_cons.1 (hL ▸ hpairL)
            exact hpc.1 m2 hm2
          have h0 := hmemL m0 (by rw [hL]; exact List.mem_cons_self _ _)
          have h2 := hmemL m2 (by rw [hL]; exact List.mem_cons_of_mem _ hm2)
          apply generateId_ne_of_chronLt m0.created m2.created h0.1 h2.1 hchron
          rw [← h0.2, ← h2.2, heq]
        have hfilter : L.filter (fun m2 => decide (m2.id ≠ m0.id)) = L2 := by
          rw [hL, List.filter_cons, if_neg (by simp)]
          apply List.filter_eq_self.2
          intro m2 hm2
          simp [hids m2 hm2]
        have hLfull : L = (msl ++ [mkr]).drop (l.length - K) := by
          rw [hLdef, hW, List.drop_append_eq_append_drop]
          rw [show l.length - K - msl.length = 0 from by omega, List.drop_zero]
        have hL2eq : L2 = (msl ++ [mkr]).drop ((l ++ [r]).length - K) := by
          have ht : L2 = L.tail := by
            rw [hL]
            rfl
          rw [ht, hLfull, ← List.drop_one, List.drop_drop]
          rw [show l.length - K + 1 = (l ++ [r]).length - K from by
            rw [hlapp]; omega]
        refine ⟨?_, rmFS_keys AC _ hndA, ?_⟩
        · show L.filter (fun m2 => decide (m2.id ≠ m0.id)) =
            ((l ++ [r]).map _).drop ((l ++ [r]).length - K)
          rw [hfilter, hms2, hL2eq]
        · intro p hp hne
          have hnot0 : (snapshotsDir ++ [m0.id]).isPrefixOf p = false := by
            cases hx : (snapshotsDir ++ [m0.id]).isPrefixOf p with
            | false => rfl
            | true => exact absurd (lookupFS_rmFS_under AC _ p hx) hne
          rw [lookupFS_rmFS_out AC _ p hnot0] at hne
          by_cases hBp : B.isPrefixOf p = true
          · have hdirB : (snapshotsDir ++ [generateId r.1]).isPrefixOf B = true := by
              rw [hB]
              rw [show snapshotsDir ++ [generateId r.1, "skills"] =
                (snapshotsDir ++ [generateId r.1]) ++ ["skills"] from by simp]
              exact isPrefixOf_append_self _ _
            have hpre2 : (snapshotsDir ++ [mkr.id]).isPrefixOf p = true :=
              isPrefixOf_trans_path _ B p hdirB hBp
            have hneid : mkr.id ≠ m0.id := by
              intro he
              rw [← he] at hnot0
              rw [hpre2] at hnot0
              cases hnot0
            refine ⟨mkr, ?_, hpre2⟩
            apply List.mem_filter.2
            refine ⟨?_, by simp [hneid]⟩
            rw [hLdef]
            exact List.mem_append.2 (Or.inr (by simp))
          · have hBp2 : B.isPrefixOf p = false := by
              cases hx : B.isPrefixOf p with
              | false => rfl
              | true => exact absurd hx hBp
            rw [houtA p hBp2] at hne
            obtain ⟨m, hmem, hpre⟩ := ihfs p hp hne
            have hneid : m.id ≠ m0.id := by
              intro he
              rw [he] at hpre
              rw [hpre] at hnot0
              cases hnot0
            refine ⟨m, ?_, hpre⟩
            apply List.mem_filter.2
            refine ⟨?_, by simp [hneid]⟩
            rw [hLdef]
            exact List.mem_append.2 (Or.inl hmem)

/-- C6: Retention invariant. Starting from a world with no snapshots and
nothing stored under the snapshots directory, after `N` snapshot creations
at strictly increasing valid instants with retention limit `K`, where
`N > K` (`hN`), exactly `K` snapshot manifests remain; they are precisely
the `K` most recently created (the listing equals the chronological
suffix of length `K`, newest first, so the oldest by `createdAt` were
deleted); and every file still stored under the snapshots directory lies
inside the directory of one of those `K` survivors — the pruned
snapshots' copied content was removed entirely. -/
theorem snapshot_retention (snapshotsDir : Path) (K : Nat) (w0 : World)
    (reqs : List (DateTime × List Path × String))
    (hman0 : w0.manifests = [])
    (hnd0 : (w0.fs.map Prod.fst).Nodup)
    (hclean : ∀ p, snapshotsDir.isPrefixOf p = true → lookupFS w0.fs p = none)
    (hvalid : ∀ q ∈ reqs, (q.1 : DateTime).valid)
    (hinc : List.Pairwise chronLt (reqs.map (fun q => q.1)))
    (hN : K < reqs.length) :
    (listSnapshots (runSnapshots snapshotsDir K w0 reqs)).length = K ∧
    listSnapshots (runSnapshots snapshotsDir K w0 reqs) =
      ((reqs.map (fun q => (⟨generateId q.1, q.2.2, q.1, q.2.1.map basename⟩ :
        SnapshotManifest))).drop (reqs.length - K)).reverse ∧
    (∀ p, snapshotsDir.isPrefixOf p = true →
      lookupFS (runSnapshots snapshotsDir K w0 reqs).fs p ≠ none →
      ∃ m ∈ (reqs.map (fun q => (⟨generateId q.1, q.2.2, q.1, q.2.1.map basename⟩ :
          SnapshotManifest))).drop (reqs.length - K),
        (snapshotsDir ++ [m.id]).isPrefixOf p = true) := by
  obtain ⟨hman, hnd, hfs⟩ :=
    runSnapshots_inv snapshotsDir K w0 hman0 hnd0 hclean reqs hvalid hinc
  have hpair : List.Pairwise (fun a b => chronLt a.created b.created)
      (reqs.map (fun q => (⟨generateId q.1, q.2.2, q.1, q.2.1.map basename⟩ :
        SnapshotManifest))) := by
    rw [List.pairwise_map]
    exact List.pairwise_map.1 hinc
  have hpairfin : List.Pairwise (fun a b => chronLt a.created b.created)
      (runSnapshots snapshotsDir K w0 reqs).manifests := by
    rw [hman]
    exact List.Pairwise.sublist (List.drop_sublist _ _) hpair
  have hls : listSnapshots (runSnapshots snapshotsDir K w0 reqs) =
      (runSnapshots snapshotsDir K w0 reqs).manifests.reverse := by
    unfold listSnapshots
    exact insertionSort_chron_asc _ hpairfin
  refine ⟨?_, ?_, ?_⟩
  · rw [hls, List.length_reverse, hman, List.length_drop, List.length_map]
    omega
  · rw [hls, hman]
  · intro p hp hne
    obtain ⟨m, hm, hpre⟩ := hfs p hp hne
    rw [hman] at hm
    exact ⟨m, hm, hpre⟩

/-- Closed instance of `snapshot_retention`: two snapshot creations one
second apart with retention limit 1 keep exactly the newer snapshot. -/
theorem snapshot_retention_witness :
    (listSnapshots (runSnapshots ["snaps"] 1 ⟨[], []⟩
        [(⟨2026, 1, 16, 9, 5, 3, 42⟩, ([], "first")),
          (⟨2026, 1, 16, 9, 5, 4, 0⟩, ([], "second"))])).length = 1 ∧
    listSnapshots (runSnapshots ["snaps"] 1 ⟨[], []⟩
        [(⟨2026, 1, 16, 9, 5, 3, 42⟩, ([], "first")),
          (⟨2026, 1, 16, 9, 5, 4, 0⟩, ([], "second"))]) =
      ((([(⟨2026, 1, 16, 9, 5, 3, 42⟩, ([], "first")),
          (⟨2026, 1, 16, 9, 5, 4, 0⟩, ([], "second"))] :
            List (DateTime × List Path × String)).map
          (fun q => (⟨generateId q.1, q.2.2, q.1, q.2.1.map basename⟩ :
            SnapshotManifest))).drop
        (([(⟨2026, 1, 16, 9, 5, 3, 42⟩, ([], "first")),
          (⟨2026, 1, 16, 9, 5, 4, 0⟩, ([], "second"))] :
            List (DateTime × List Path × String)).length - 1)).reverse ∧
    (∀ p, (["snaps"] : Path).isPrefixOf p = true →
      lookupFS (runSnapshots ["snaps"] 1 ⟨[], []⟩
        [(⟨2026, 1, 16, 9, 5, 3, 42⟩, ([], "first")),
          (⟨2026, 1, 16, 9, 5, 4, 0⟩, ([], "second"))]).fs p ≠ none →
      ∃ m ∈ (([(⟨2026, 1, 16, 9, 5, 3, 42⟩, ([], "first")),
          (⟨2026, 1, 16, 9, 5, 4, 0⟩, ([], "second"))] :
            List (DateTime × List Path × String)).map
          (fun q => (⟨generateId q.1, q.2.2, q.1, q.2.1.map basename⟩ :
            SnapshotManifest))).drop
        (([(⟨2026, 1, 16, 9, 5, 3, 42⟩, ([], "first")),
          (⟨2026, 1, 16, 9, 5, 4, 0⟩, ([], "second"))] :
            List (DateTime × List Path × String)).length - 1),
        ((["snaps"] : Path) ++ [m.id]).isPrefixOf p = true) :=
  snapshot_retention ["snaps"] 1 ⟨[], []⟩
    [(⟨2026, 1, 16, 9, 5, 3, 42⟩, ([], "first")),
      (⟨2026, 1, 16, 9, 5, 4, 0⟩, ([], "second"))]
    rfl (by decide) (fun p hp => rfl)
    (by
      intro q hq
      simp only [List.mem_cons, List.not_mem_nil, or_false] at hq
      rcases hq with h | h
      all_goals rw [h]; simp [DateTime.valid])
    (by
      simp only [List.map_cons, List.map_nil]
      refine List.Pairwise.cons ?_ (List.pairwise_singleton _ _)
      intro b hb
      simp only [List.mem_cons, List.not_mem_nil, or_false] at hb
      rw [hb]
      show natListCmp _ _ = Ordering.lt
      decide)
    (by decide)

end Simba
